import Mathlib

/-!
A verification development for the `shred` particle-atom model
(`js/model/ParticleAtom.js`).  The JavaScript model is shallowly embedded:

* 2-D vectors (`DOT/Vector2`) become pairs of real numbers;
* the mutable particle objects shared by reference between the atom and its
  collaborators become a heap (`Store`) mapping particle ids to records, and
  every mutation is an explicit heap update;
* the three `ObservableArray` collections become lists of particle ids;
* the electron shell position table becomes a list of `Slot` records carrying
  a stable index (object identity), a fixed position and an optional occupant;
* JavaScript number arithmetic is idealized as exact real / rational
  arithmetic (the spec states its numeric tolerances, which exact equality
  subsumes).

Array sorts (`Array.prototype.sort`, lodash `sortBy`) are modeled by the
stable `List.insertionSort`; on the short (≤ 10 element) arrays involved the
engines' sorts are stable as well.
-/

open Real

/-- 2-D vector, the embedding of `DOT/Vector2`. -/
abbrev Vec : Type := ℝ × ℝ

/-- `Vector2.magnitude()`. -/
noncomputable def vmag (v : Vec) : ℝ := Real.sqrt (v.1 ^ 2 + v.2 ^ 2)

/-- `Vector2.distance( other )`. -/
noncomputable def vdist (a b : Vec) : ℝ := vmag (a - b)

/-- A point on the circle of radius `r` around `c` at angle `θ`. -/
noncomputable def onCircle (c : Vec) (r θ : ℝ) : Vec :=
  (c.1 + r * Real.cos θ, c.2 + r * Real.sin θ)

/-- Particle type tag (`particle.type`, a string in the source). -/
inductive PType : Type
  | proton
  | neutron
  | electron
deriving DecidableEq

/-- The externally owned particle object: current position, destination,
display layer (`zLayerProperty`), the user-controlled flag, and whether the
atom currently has a `userControlledProperty` listener attached
(`particleAtomRemovalListener`). -/
structure ParticleData : Type where
  ptype : PType
  pos : Vec
  dest : Vec
  zLayer : ℕ
  userControlled : Bool
  watched : Bool

/-- The heap of particle objects, addressed by particle id. -/
abbrev Store : Type := ℕ → ParticleData

/-- One entry of `electronShellPositions`: object identity (`idx`), the fixed
slot position, and the occupying electron (if any). -/
structure Slot : Type where
  idx : ℕ
  position : Vec
  electron : Option ℕ

/-- The state of a `ParticleAtom` together with the particle heap. -/
structure AtomState : Type where
  position : Vec
  nucleusOffset : Vec
  nucleonRadius : ℝ
  innerElectronShellRadius : ℝ
  outerElectronShellRadius : ℝ
  protons : List ℕ
  neutrons : List ℕ
  electrons : List ℕ
  electronShellPositions : List Slot
  nucleusRadius : ℝ
  /-- Number of `reconfigureNucleus` invocations so far (instrumentation used
  to state that an operation does or does not reconfigure the nucleus). -/
  reconfigureCount : ℕ
  store : Store

/-- The ten electron shell positions built in the constructor: two inner slots
on the x-axis, eight outer slots starting at angle `π/8·1.2` and stepping by
`2π/8`. -/
noncomputable def initialSlots (innerR outerR : ℝ) : List Slot :=
  ⟨0, (innerR, 0), none⟩ ::
  ⟨1, (-innerR, 0), none⟩ ::
  (List.range 8).map (fun k =>
    ⟨k + 2, onCircle (0, 0) outerR (Real.pi / 8 * 1.2 + k * (2 * Real.pi / 8)), none⟩)

/-- `containsParticle`. -/
def containsParticle (s : AtomState) (pid : ℕ) : Prop :=
  pid ∈ s.protons ∨ pid ∈ s.neutrons ∨ pid ∈ s.electrons

instance (s : AtomState) (pid : ℕ) : Decidable (containsParticle s pid) := by
  unfold containsParticle; infer_instance

/-- The interleaved nucleon list built at the top of `reconfigureNucleus`.
`toAdd` is the running `neutronsToAdd` accumulator and `perProton` the
`neutronsPerProton` ratio.  Each step of the structural recursion is one
iteration of the outer `while` loop: the inner `while` emits
`min ⌊toAdd + perProton⌋ |ns|` neutrons, then one proton is emitted.  When no
protons remain the accumulator (which by the loop invariant equals the number
of remaining neutrons, or is infinite when `protons.length = 0` since
JavaScript division by zero yields `Infinity`) releases every remaining
neutron, so that case emits `ns` directly. -/
def interleave (perProton : ℚ) : List ℕ → List ℕ → ℚ → List ℕ
  | [], ns, _ => ns
  | p :: ps, ns, toAdd =>
      let t : ℚ := toAdd + perProton
      let k : ℕ := min t.floor.toNat ns.length
      ns.take k ++ p :: interleave perProton ps (ns.drop k) (t - k)

/-- The nucleon list `reconfigureNucleus` lays out, for a given atom state. -/
def nucleonList (s : AtomState) : List ℕ :=
  interleave ((s.neutrons.length : ℚ) / (s.protons.length : ℚ)) s.protons s.neutrons 0

theorem interleave_length (perProton : ℚ) :
    ∀ (ps ns : List ℕ) (toAdd : ℚ),
      (interleave perProton ps ns toAdd).length = ps.length + ns.length := by
  intro ps
  induction ps with
  | nil => intro ns toAdd; simp [interleave]
  | cons p ps ih =>
      intro ns toAdd
      simp only [interleave, List.length_append, List.length_take, List.length_cons, ih,
        List.length_drop]
      omega

theorem nucleonList_length (s : AtomState) :
    (nucleonList s).length = s.protons.length + s.neutrons.length := by
  simp [nucleonList, interleave_length]

/-- Modelled from the spec: `DOT/LinearFunction` (an external dependency whose
source is not part of this repository) — "scaleFactor is linearly interpolated
between 2.4 (at nucleonRadius=3) and 1.35 (at nucleonRadius=10)".  The linear
map sending `[a1, a2]` to `[b1, b2]`, evaluated at `x`. -/
noncomputable def linearFunction (a1 a2 b1 b2 x : ℝ) : ℝ :=
  b1 + (x - a1) * (b2 - b1) / (a2 - a1)

/-- The `scaleFactor` used by the generalized (≥ 5 nucleon) placement. -/
noncomputable def scaleFactorOf (r : ℝ) : ℝ :=
  linearFunction 3 10 2.4 1.35 r

/-- Loop state of the generalized placement in `reconfigureNucleus`. -/
structure RingState : Type where
  placementRadius : ℝ
  numAtThisRadius : ℤ
  level : ℕ
  placementAngle : ℝ
  placementAngleDelta : ℝ

/-- Initial loop state (`placementRadius = 0`, `numAtThisRadius = 1`,
`level = 0`, `placementAngle = 0`, `placementAngleDelta = 0`). -/
def ringInit : RingState := ⟨0, 1, 0, 0, 0⟩

/-- The post-placement update of the loop state: decrement `numAtThisRadius`;
while the ring still has room only advance the angle, otherwise move out to
the next ring (increment `level`, grow the radius by `r·sf/level`, jump the
angle, and recompute the ring capacity `⌊placementRadius·π/r⌋` and the angle
step). -/
noncomputable def ringStep (r sf : ℝ) (st : RingState) : RingState :=
  if st.numAtThisRadius - 1 > 0 then
    { st with
      numAtThisRadius := st.numAtThisRadius - 1
      placementAngle := st.placementAngle + st.placementAngleDelta }
  else
    let level := st.level + 1
    let pr := st.placementRadius + r * sf / level
    { placementRadius := pr
      numAtThisRadius := ⌊pr * Real.pi / r⌋
      level := level
      placementAngle := st.placementAngle + 2 * Real.pi * 0.2 + level * Real.pi
      placementAngleDelta := 2 * Real.pi / (⌊pr * Real.pi / r⌋ : ℝ) }

/-- The generalized placement loop: assign each nucleon the destination
`center + placementRadius·(cos placementAngle, sin placementAngle)` and the
current `level` as display layer, then update the loop state. -/
noncomputable def ringPlace (c : Vec) (r sf : ℝ) :
    List ℕ → RingState → List (ℕ × Vec × ℕ) × RingState
  | [], st => ([], st)
  | pid :: rest, st =>
      let tl := ringPlace c r sf rest (ringStep r sf st)
      ((pid, onCircle c st.placementRadius st.placementAngle, st.level) :: tl.1, tl.2)

/-- The pure core of `reconfigureNucleus`: given the interleaved nucleon list,
the center (atom position + nucleus offset) and the nucleon radius, produce
each nucleon's assigned destination and display layer together with the
resulting nucleus radius.  The five count cases follow the source's
`if`/`else if` chain. -/
noncomputable def configureNucleons (nucleons : List ℕ) (c : Vec) (r : ℝ) :
    List (ℕ × Vec × ℕ) × ℝ :=
  match nucleons with
  | [] => ([], r)
  | [a] => ([(a, c, 0)], r)
  | [a, b] =>
      let θ := 0.2 * 2 * Real.pi
      ([(a, onCircle c r θ, 0),
        (b, (c.1 - r * Real.cos θ, c.2 - r * Real.sin θ), 0)], r * 2)
  | [a, b, d] =>
      let θ := 0.7 * 2 * Real.pi
      let dfc := r * 1.155
      ([(a, onCircle c dfc θ, 0),
        (b, onCircle c dfc (θ + 2 * Real.pi / 3), 0),
        (d, onCircle c dfc (θ + 4 * Real.pi / 3), 0)], dfc + r)
  | [a, b, d, e] =>
      let θ := 1.4 * 2 * Real.pi
      let dfc := r * 2 * Real.cos (Real.pi / 3)
      ([(a, onCircle c r θ, 0),
        (b, onCircle c dfc (θ + Real.pi / 2), 1),
        (d, (c.1 - r * Real.cos θ, c.2 - r * Real.sin θ), 0),
        (e, (c.1 - dfc * Real.cos (θ + Real.pi / 2), c.2 - dfc * Real.sin (θ + Real.pi / 2)), 1)],
       dfc + r)
  | l =>
      let placed := ringPlace c r (scaleFactorOf r) l ringInit
      (placed.1, placed.2.placementRadius + r)

/-- Write a batch of (destination, layer) assignments back into the heap. -/
def applyAssignments (st : Store) (l : List (ℕ × Vec × ℕ)) : Store :=
  l.foldl (fun st a => Function.update st a.1 { st a.1 with dest := a.2.1, zLayer := a.2.2 }) st

/-- `reconfigureNucleus`: interleave the nucleons, lay them out around the
center, write destinations and layers back to the particles, and set the
nucleus radius. -/
noncomputable def reconfigureNucleus (s : AtomState) : AtomState :=
  let placed := configureNucleons (nucleonList s) (s.position + s.nucleusOffset) s.nucleonRadius
  { s with
    store := applyAssignments s.store placed.1
    nucleusRadius := placed.2
    reconfigureCount := s.reconfigureCount + 1 }

/-- The nucleus radius the configurator computes for the atom's current
proton/neutron membership (the value `nucleusRadiusProperty` is meant to
track). -/
noncomputable def configuratorRadius (s : AtomState) : ℝ :=
  (configureNucleons (nucleonList s) (s.position + s.nucleusOffset) s.nucleonRadius).2

/-- Stable sort of slots by a real-valued key, ascending — the model of
`Array.prototype.sort` with a distance-difference comparator and of lodash
`_.sortBy`. -/
noncomputable def sortSlotsBy (key : Slot → ℝ) (l : List Slot) : List Slot :=
  List.insertionSort (fun a b => key a ≤ key b) l

/-- Heap update: set a particle's destination (`destinationProperty.set`). -/
def setDest (st : Store) (pid : ℕ) (v : Vec) : Store :=
  Function.update st pid { st pid with dest := v }

/-- Heap update: set a particle's display layer (`zLayerProperty.set`). -/
def setZLayer (st : Store) (pid : ℕ) (n : ℕ) : Store :=
  Function.update st pid { st pid with zLayer := n }

/-- Heap update: attach/detach the atom's `userControlledProperty` listener. -/
def setWatched (st : Store) (pid : ℕ) (b : Bool) : Store :=
  Function.update st pid { st pid with watched := b }

/-- Heap update: set the `userControlledProperty` value itself. -/
def setUserCtrlFlag (st : Store) (pid : ℕ) (b : Bool) : Store :=
  Function.update st pid { st pid with userControlled := b }

/-- `addParticle`.  `phetioBrand` is `phet.chipper.brand === 'phet-io'`: only
under that brand is a duplicate add ignored.  Nucleons are appended to their
collection and the nucleus is reconfigured; electrons are appended, the open
shell positions are ordered first by distance from the particle (the default
`'proximal'` mode) and then, stably, by distance from the atom's position, and
the first slot of the final order receives the electron, whose destination is
set to that slot's position.  In every branch the removal watcher is
attached. -/
noncomputable def addParticle (phetioBrand : Bool) (s : AtomState) (pid : ℕ) : AtomState :=
  if phetioBrand ∧ containsParticle s pid then s
  else
    match (s.store pid).ptype with
    | .proton =>
        reconfigureNucleus
          { s with protons := s.protons ++ [pid], store := setWatched s.store pid true }
    | .neutron =>
        reconfigureNucleus
          { s with neutrons := s.neutrons ++ [pid], store := setWatched s.store pid true }
    | .electron =>
        let openPos := s.electronShellPositions.filter (fun t => decide (t.electron = none))
        let sorted1 := sortSlotsBy (fun t => vdist (s.store pid).pos t.position) openPos
        let sorted2 := sortSlotsBy (fun t => vdist s.position t.position) sorted1
        match sorted2 with
        | [] =>
            -- "No open positions found for electrons": the asserted-against case.
            { s with electrons := s.electrons ++ [pid], store := setWatched s.store pid true }
        | ch :: _ =>
            { s with
              electrons := s.electrons ++ [pid]
              electronShellPositions := s.electronShellPositions.map (fun t =>
                if t.idx = ch.idx then { t with electron := some pid } else t)
              store := setWatched (setDest s.store pid ch.position) pid true }

/-- One iteration of the `forEach` body of the `electrons`
`addItemRemovedListener`, visiting the slot with identity `i`: if that slot
holds the removed electron, clear it, and when it is an inner-shell slot
(`|‖position‖ − innerR| < 1e-5`) move the electron of the nearest occupied
outer-shell slot into it, clearing that outer slot and retargeting the moved
electron's destination to the vacated position. -/
noncomputable def shellClearStep (innerR outerR : ℝ) (pid : ℕ)
    (acc : List Slot × Store) (i : ℕ) : List Slot × Store :=
  match acc.1.find? (fun t => decide (t.idx = i)) with
  | none => acc
  | some t =>
      if t.electron = some pid then
        let slots1 := acc.1.map (fun w => if w.idx = i then { w with electron := none } else w)
        if |vmag t.position - innerR| < 1e-5 then
          let occupied := slots1.filter (fun u =>
            decide (u.electron ≠ none ∧ |vmag u.position - outerR| < 1e-5))
          match sortSlotsBy (fun u => vdist u.position t.position) occupied with
          | [] => (slots1, acc.2)
          | u :: _ =>
              (slots1.map (fun w =>
                 if w.idx = u.idx then { w with electron := none }
                 else if w.idx = i then { w with electron := u.electron }
                 else w),
               match u.electron with
               | some e => setDest acc.2 e t.position
               | none => acc.2)
        else (slots1, acc.2)
      else acc

/-- The `electrons` `addItemRemovedListener`: run the clearing/backfill body
over every shell position, in table order. -/
noncomputable def shellOnElectronRemoved (s : AtomState) (pid : ℕ) : AtomState :=
  let res := (s.electronShellPositions.map Slot.idx).foldl
      (shellClearStep s.innerElectronShellRadius s.outerElectronShellRadius pid)
      (s.electronShellPositions, s.store)
  { s with electronShellPositions := res.1, store := res.2 }

/-- Removal of an electron from the `electrons` collection; the removal
notification runs the shell listener. -/
noncomputable def removeElectron (s : AtomState) (pid : ℕ) : AtomState :=
  shellOnElectronRemoved { s with electrons := s.electrons.erase pid } pid

/-- `removeParticle`: signals an error when the particle is in none of the
three collections; otherwise removes it from the collection holding it (an
electron removal triggering the shell listener) and detaches its watcher. -/
noncomputable def removeParticle (s : AtomState) (pid : ℕ) : Except String AtomState :=
  if pid ∈ s.protons then
    .ok { s with protons := s.protons.erase pid, store := setWatched s.store pid false }
  else if pid ∈ s.neutrons then
    .ok { s with neutrons := s.neutrons.erase pid, store := setWatched s.store pid false }
  else if pid ∈ s.electrons then
    let s1 := removeElectron s pid
    .ok { s1 with store := setWatched s1.store pid false }
  else
    .error "Attempt to remove particle that is not in this particle atom."

/-- `extractParticle`: remove and return the last-index member of the
requested type, or `none` when that collection is empty. -/
noncomputable def extractParticle (s : AtomState) (t : PType) : Option ℕ × AtomState :=
  let pick : Option ℕ :=
    match t with
    | .proton => s.protons.getLast?
    | .neutron => s.neutrons.getLast?
    | .electron => s.electrons.getLast?
  match pick with
  | none => (none, s)
  | some pid => (some pid, ((removeParticle s pid).toOption).getD s)

/-- `forEach` of `removeParticle` over a snapshot of one collection.
Modelled from the spec: `ObservableArray.forEach` (an AXON dependency whose
source is not part of this repository) iterates over a snapshot of the array,
as §5 requires ("the implementation must snapshot collections before
iterating when a callback may mutate them, e.g. during `clear`"). -/
noncomputable def removeAll (l : List ℕ) (s : AtomState) : Except String AtomState :=
  l.foldlM removeParticle s

/-- `clear()`: remove every member of all three collections, without any
nucleus reconfiguration. -/
noncomputable def clearAtom (s : AtomState) : Except String AtomState := do
  let s1 ← removeAll s.protons s
  let s2 ← removeAll s1.neutrons s1
  removeAll s2.electrons s2

/-- Setting a particle's `userControlledProperty`.  A set to the same value
does not notify; on a change to `true` the atom's lazily linked watcher (when
attached) evicts the particle: it is removed from its collection (for
nucleons, reconfiguring the nucleus; for electrons, running the shell
listener), its display layer is reset to 0 and the watcher is detached. -/
noncomputable def setUserControlled (s : AtomState) (pid : ℕ) (b : Bool) : AtomState :=
  if (s.store pid).userControlled = b then s
  else
    let s0 := { s with store := setUserCtrlFlag s.store pid b }
    if b ∧ (s.store pid).watched then
      match (s0.store pid).ptype with
      | .proton =>
          if pid ∈ s0.protons then
            let s1 := reconfigureNucleus { s0 with protons := s0.protons.erase pid }
            { s1 with store := setWatched (setZLayer s1.store pid 0) pid false }
          else s0
      | .neutron =>
          if pid ∈ s0.neutrons then
            let s1 := reconfigureNucleus { s0 with neutrons := s0.neutrons.erase pid }
            { s1 with store := setWatched (setZLayer s1.store pid 0) pid false }
          else s0
      | .electron =>
          if pid ∈ s0.electrons then
            let s1 := removeElectron s0 pid
            { s1 with store := setWatched (setZLayer s1.store pid 0) pid false }
          else s0
    else s0

/-- The `translateParticle` helper: a particle sitting at its destination is
moved bodily (`setPositionAndDestination`); a particle mid-animation has only
its destination shifted. -/
noncomputable def translateParticle (d : Vec) (p : ParticleData) : ParticleData :=
  if p.pos = p.dest then { p with pos := p.pos + d, dest := p.pos + d }
  else { p with dest := p.dest + d }

/-- The body shared by the `nucleusOffsetProperty` and `positionProperty`
links: translate every proton and every neutron by the delta. -/
noncomputable def translateNucleons (s : AtomState) (d : Vec) : AtomState :=
  { s with
    store := (s.protons ++ s.neutrons).foldl
      (fun st pid => Function.update st pid (translateParticle d (st pid))) s.store }

/-- Setting `positionProperty` (deep-equality semantics: an unchanged value
does not notify). -/
noncomputable def setAtomPosition (s : AtomState) (v : Vec) : AtomState :=
  if v = s.position then s
  else { translateNucleons s (v - s.position) with position := v }

/-- Setting `nucleusOffsetProperty` (deep-equality semantics). -/
noncomputable def setNucleusOffset (s : AtomState) (v : Vec) : AtomState :=
  if v = s.nucleusOffset then s
  else { translateNucleons s (v - s.nucleusOffset) with nucleusOffset := v }

/-- `protonCountProperty` (derived from the collection's length). -/
def protonCount (s : AtomState) : ℕ := s.protons.length

/-- `neutronCountProperty`. -/
def neutronCount (s : AtomState) : ℕ := s.neutrons.length

/-- `electronCountProperty`. -/
def electronCount (s : AtomState) : ℕ := s.electrons.length

/-- `chargeProperty`, derived as `protonCount − electronCount`. -/
def chargeValue (s : AtomState) : ℤ := (protonCount s : ℤ) - (electronCount s : ℤ)

/-- `massNumberProperty`, derived as `protonCount + neutronCount`. -/
def massNumber (s : AtomState) : ℕ := protonCount s + neutronCount s

/-- `particleCountProperty`, derived as the sum of the three counts. -/
def particleCountValue (s : AtomState) : ℕ :=
  protonCount s + neutronCount s + electronCount s

/-- `getWeight()`. -/
def getWeight (s : AtomState) : ℕ :=
  protonCount s + neutronCount s

/-- `getCharge()`. -/
def getCharge (s : AtomState) : ℤ :=
  (protonCount s : ℤ) - (electronCount s : ℤ)

/-- The freshly constructed atom: default position and offset are the zero
vector, the collections are empty, the slot table is the constructed one, and
`nucleusRadiusProperty` starts at the nucleon radius. -/
noncomputable def initialAtom (store : Store) (r innerR outerR : ℝ) : AtomState :=
  { position := (0, 0)
    nucleusOffset := (0, 0)
    nucleonRadius := r
    innerElectronShellRadius := innerR
    outerElectronShellRadius := outerR
    protons := []
    neutrons := []
    electrons := []
    electronShellPositions := initialSlots innerR outerR
    nucleusRadius := r
    reconfigureCount := 0
    store := store }

/-- The public mutating operations of the facade, for stating properties of
arbitrary operation sequences. -/
inductive AtomOp : Type
  | add (phetioBrand : Bool) (pid : ℕ)
  | remove (pid : ℕ)
  | extract (t : PType)
  | clearAll
  | userCtrl (pid : ℕ) (b : Bool)
  | setPos (v : Vec)
  | setOffset (v : Vec)

/-- Apply one operation (failing removals/clears leave the state unchanged,
mirroring a caught exception). -/
noncomputable def applyOp (s : AtomState) : AtomOp → AtomState
  | .add b pid => addParticle b s pid
  | .remove pid => ((removeParticle s pid).toOption).getD s
  | .extract t => (extractParticle s t).2
  | .clearAll => ((clearAtom s).toOption).getD s
  | .userCtrl pid b => setUserControlled s pid b
  | .setPos v => setAtomPosition s v
  | .setOffset v => setNucleusOffset s v

/-- Apply a sequence of operations. -/
noncomputable def applyOps (s : AtomState) (ops : List AtomOp) : AtomState :=
  ops.foldl applyOp s

theorem vmag_nonneg (v : Vec) : 0 ≤ vmag v :=
  Real.sqrt_nonneg _

theorem vdist_nonneg (a b : Vec) : 0 ≤ vdist a b :=
  Real.sqrt_nonneg _

theorem vmag_axis (x : ℝ) : vmag (x, 0) = |x| := by
  rw [vmag]
  norm_num [Real.sqrt_sq_eq_abs]

theorem vmag_eq_zero_iff (v : Vec) : vmag v = 0 ↔ v = 0 := by
  rw [vmag, Real.sqrt_eq_zero (by positivity)]
  constructor
  · intro h
    have h1 : v.1 = 0 ∧ v.2 = 0 := by
      constructor <;> nlinarith [sq_nonneg v.1, sq_nonneg v.2]
    exact Prod.ext h1.1 h1.2
  · intro h; rw [h]; norm_num [Prod.fst_zero, Prod.snd_zero]

theorem vdist_eq_zero_iff (a b : Vec) : vdist a b = 0 ↔ a = b := by
  rw [vdist, vmag_eq_zero_iff, sub_eq_zero]

theorem vmag_onCircle (R θ : ℝ) (hR : 0 ≤ R) : vmag (onCircle (0, 0) R θ) = R := by
  have hpy := Real.sin_sq_add_cos_sq θ
  rw [onCircle, vmag]
  have h2 : (0 + R * Real.cos θ) ^ 2 + (0 + R * Real.sin θ) ^ 2 = R ^ 2 := by nlinarith
  rw [h2, Real.sqrt_sq hR]

theorem vdist_onCircle_center (c : Vec) (R θ : ℝ) (hR : 0 ≤ R) :
    vdist (onCircle c R θ) c = R := by
  have hpy := Real.sin_sq_add_cos_sq θ
  rw [vdist, onCircle, vmag, Prod.fst_sub, Prod.snd_sub]
  have h2 : ((c.1 + R * Real.cos θ, c.2 + R * Real.sin θ) : Vec).1 - c.1 = R * Real.cos θ := by
    norm_num
  have h3 : ((c.1 + R * Real.cos θ, c.2 + R * Real.sin θ) : Vec).2 - c.2 = R * Real.sin θ := by
    norm_num
  rw [h2, h3]
  have h4 : (R * Real.cos θ) ^ 2 + (R * Real.sin θ) ^ 2 = R ^ 2 := by nlinarith
  rw [h4, Real.sqrt_sq hR]

theorem vdist_onCircle_chord (c : Vec) (R a b : ℝ) :
    vdist (onCircle c R a) (onCircle c R b) =
      Real.sqrt (R ^ 2 * (2 - 2 * Real.cos (a - b))) := by
  have hpa := Real.sin_sq_add_cos_sq a
  have hpb := Real.sin_sq_add_cos_sq b
  have hab := Real.cos_sub a b
  rw [vdist, onCircle, onCircle, vmag, Prod.fst_sub, Prod.snd_sub]
  congr 1
  have h2 : ((c.1 + R * Real.cos a, c.2 + R * Real.sin a) : Vec).1 -
      ((c.1 + R * Real.cos b, c.2 + R * Real.sin b) : Vec).1 = R * (Real.cos a - Real.cos b) := by
    norm_num; ring
  have h3 : ((c.1 + R * Real.cos a, c.2 + R * Real.sin a) : Vec).2 -
      ((c.1 + R * Real.cos b, c.2 + R * Real.sin b) : Vec).2 = R * (Real.sin a - Real.sin b) := by
    norm_num; ring
  rw [h2, h3, hab]
  ring_nf
  nlinarith [hpa, hpb]

/-- C5: at every state reached by any sequence of facade operations, the
derived values are exactly the arithmetic functions of the collection
lengths: `charge = protons − electrons`, `massNumber = protons + neutrons`,
`particleCount = protons + neutrons + electrons`, `getWeight = protons +
neutrons` and `getCharge = protons − electrons`; they are functions of the
state, with no independent setter among the operations. -/
theorem C5_derived_values (s0 : AtomState) (ops : List AtomOp) :
    chargeValue (applyOps s0 ops) =
      (protonCount (applyOps s0 ops) : ℤ) - (electronCount (applyOps s0 ops) : ℤ) ∧
    massNumber (applyOps s0 ops) =
      protonCount (applyOps s0 ops) + neutronCount (applyOps s0 ops) ∧
    particleCountValue (applyOps s0 ops) =
      protonCount (applyOps s0 ops) + neutronCount (applyOps s0 ops) +
        electronCount (applyOps s0 ops) ∧
    getWeight (applyOps s0 ops) = protonCount (applyOps s0 ops) + neutronCount (applyOps s0 ops) ∧
    getCharge (applyOps s0 ops) =
      (protonCount (applyOps s0 ops) : ℤ) - (electronCount (applyOps s0 ops) : ℤ) :=
  ⟨rfl, rfl, rfl, rfl, rfl⟩

/-- A plain proton particle record used in concrete scenarios. -/
def protonData : ParticleData := ⟨.proton, (0, 0), (0, 0), 0, false, false⟩

/-- A plain neutron particle record used in concrete scenarios. -/
def neutronData : ParticleData := ⟨.neutron, (0, 0), (0, 0), 0, false, false⟩

/-- A plain electron particle record used in concrete scenarios. -/
def electronData : ParticleData := ⟨.electron, (0, 0), (0, 0), 0, false, false⟩

/-- A concrete atom that already contains particle 0 as a proton. -/
noncomputable def sC7 : AtomState :=
  { initialAtom (fun _ => protonData) 3 85 130 with protons := [0] }

/-- C7 (amended): only under the phet-io brand is adding an
already-contained particle a guarded no-op that leaves the three collections
and the slot table unchanged; under other brands `addParticle` performs no
duplicate check. -/
theorem C7_duplicate_add_noop (s : AtomState) (pid : ℕ) (h : containsParticle s pid) :
    addParticle true s pid = s := by
  rw [addParticle, if_pos ⟨rfl, h⟩]

theorem C7_witness :
    containsParticle sC7 0 ∧ addParticle true sC7 0 = sC7 :=
  ⟨Or.inl (by simp [sC7, initialAtom]),
   C7_duplicate_add_noop sC7 0 (Or.inl (by simp [sC7, initialAtom]))⟩

/-- C7 counterexample: outside the phet-io brand (the default `'phet'` brand),
adding a particle that the atom already contains is not a no-op — the proton
collection changes (the particle is appended a second time). -/
theorem C7_counterexample :
    containsParticle sC7 0 ∧ (addParticle false sC7 0).protons ≠ sC7.protons := by
  refine ⟨Or.inl (by simp [sC7, initialAtom]), ?_⟩
  have h1 : (addParticle false sC7 0).protons = [0, 0] := by
    simp [addParticle, sC7, initialAtom, protonData, reconfigureNucleus]
  rw [h1]
  simp [sC7, initialAtom]

/-- C8: `removeParticle` signals an error exactly when the particle is in none
of the three collections (returning no state, hence modifying nothing);
a member is removed from precisely the collection holding it — checked in
the order protons, neutrons, electrons — the other two collections are
unchanged, and the particle's `userControlledProperty` watcher is detached. -/
theorem C8_removeParticle_spec (s : AtomState) (pid : ℕ) :
    ((∃ msg, removeParticle s pid = .error msg) ↔ ¬ containsParticle s pid) ∧
    (pid ∈ s.protons →
      ∃ s', removeParticle s pid = .ok s' ∧
        s'.protons = s.protons.erase pid ∧ s'.neutrons = s.neutrons ∧
        s'.electrons = s.electrons ∧
        s'.electronShellPositions = s.electronShellPositions ∧
        (s'.store pid).watched = false) ∧
    (pid ∉ s.protons → pid ∈ s.neutrons →
      ∃ s', removeParticle s pid = .ok s' ∧
        s'.neutrons = s.neutrons.erase pid ∧ s'.protons = s.protons ∧
        s'.electrons = s.electrons ∧
        s'.electronShellPositions = s.electronShellPositions ∧
        (s'.store pid).watched = false) ∧
    (pid ∉ s.protons → pid ∉ s.neutrons → pid ∈ s.electrons →
      ∃ s', removeParticle s pid = .ok s' ∧
        s'.electrons = s.electrons.erase pid ∧ s'.protons = s.protons ∧
        s'.neutrons = s.neutrons ∧
        (s'.store pid).watched = false) := by
  refine ⟨?_, ?_, ?_, ?_⟩
  · constructor
    · rintro ⟨msg, hmsg⟩ hc
      rw [removeParticle] at hmsg
      rcases hc with h | h | h
      · rw [if_pos h] at hmsg; exact Except.noConfusion hmsg
      · by_cases hp : pid ∈ s.protons
        · rw [if_pos hp] at hmsg; exact Except.noConfusion hmsg
        · rw [if_neg hp, if_pos h] at hmsg; exact Except.noConfusion hmsg
      · by_cases hp : pid ∈ s.protons
        · rw [if_pos hp] at hmsg; exact Except.noConfusion hmsg
        · by_cases hn : pid ∈ s.neutrons
          · rw [if_neg hp, if_pos hn] at hmsg; exact Except.noConfusion hmsg
          · rw [if_neg hp, if_neg hn, if_pos h] at hmsg; exact Except.noConfusion hmsg
    · intro hc
      rw [containsParticle] at hc
      push_neg at hc
      refine ⟨"Attempt to remove particle that is not in this particle atom.", ?_⟩
      rw [removeParticle, if_neg hc.1, if_neg hc.2.1, if_neg hc.2.2]
  · intro hp
    refine ⟨{ s with protons := s.protons.erase pid, store := setWatched s.store pid false },
      ?_, rfl, rfl, rfl, rfl, ?_⟩
    · rw [removeParticle, if_pos hp]
    · simp [setWatched, Function.update_same]
  · intro hp hn
    refine ⟨{ s with neutrons := s.neutrons.erase pid, store := setWatched s.store pid false },
      ?_, rfl, rfl, rfl, rfl, ?_⟩
    · rw [removeParticle, if_neg hp, if_pos hn]
    · simp [setWatched, Function.update_same]
  · intro hp hn he
    refine ⟨{ removeElectron s pid with
        store := setWatched (removeElectron s pid).store pid false }, ?_, ?_, ?_, ?_, ?_⟩
    · rw [removeParticle, if_neg hp, if_neg hn, if_pos he]
    · simp [removeElectron, shellOnElectronRemoved]
    · simp [removeElectron, shellOnElectronRemoved]
    · simp [removeElectron, shellOnElectronRemoved]
    · simp [setWatched, Function.update_same]

theorem foldl_update_not_mem (g : ParticleData → ParticleData) (l : List ℕ) (st : Store)
    (pid : ℕ) (h : pid ∉ l) :
    l.foldl (fun st q => Function.update st q (g (st q))) st pid = st pid := by
  induction l generalizing st with
  | nil => rfl
  | cons a t ih =>
      simp only [List.mem_cons, not_or] at h
      simp only [List.foldl_cons]
      rw [ih _ h.2]
      exact Function.update_noteq h.1 _ _

theorem foldl_update_nodup (g : ParticleData → ParticleData) (l : List ℕ) (st : Store)
    (pid : ℕ) (hnd : l.Nodup) (h : pid ∈ l) :
    l.foldl (fun st q => Function.update st q (g (st q))) st pid = g (st pid) := by
  induction l generalizing st with
  | nil => cases h
  | cons a t ih =>
      rcases List.nodup_cons.mp hnd with ⟨ha, ht⟩
      simp only [List.foldl_cons]
      rcases List.mem_cons.mp h with rfl | hmem
      · rw [foldl_update_not_mem g t _ pid ha]
        simp [Function.update_same]
      · have hne : pid ≠ a := by rintro rfl; exact ha hmem
        rw [ih _ ht hmem, Function.update_noteq hne]

theorem translateParticle_dest (d : Vec) (p : ParticleData) :
    (translateParticle d p).dest = p.dest + d := by
  rw [translateParticle]
  split
  · rename_i h; rw [← h]
  · rfl

theorem translateParticle_pos_iff (d : Vec) (hd : d ≠ 0) (p : ParticleData) :
    (translateParticle d p).pos = p.pos + d ↔ p.pos = p.dest := by
  rw [translateParticle]
  split
  · rename_i h; simpa using h
  · rename_i h
    simp only [self_eq_add_right]
    exact iff_of_false hd h

/-- C10: when `positionProperty` or `nucleusOffsetProperty` changes (deep
equality — a change means a nonzero delta `d`), every proton's and neutron's
destination is translated by exactly `d`, its position is translated by `d`
iff it equaled the destination beforehand (otherwise the position is left
alone), particles outside the nucleon collections (the electrons) are
untouched, the slot table is untouched, and the Nucleon Configurator is not
re-run. -/
theorem C10_translation (s : AtomState) (v w : Vec)
    (hnd : (s.protons ++ s.neutrons).Nodup)
    (hv : v ≠ s.position) (hw : w ≠ s.nucleusOffset) :
    (∀ pid ∈ s.protons ++ s.neutrons,
      ((setAtomPosition s v).store pid).dest = (s.store pid).dest + (v - s.position) ∧
      (((setAtomPosition s v).store pid).pos = (s.store pid).pos + (v - s.position) ↔
        (s.store pid).pos = (s.store pid).dest)) ∧
    (∀ pid, pid ∉ s.protons ++ s.neutrons → (setAtomPosition s v).store pid = s.store pid) ∧
    (setAtomPosition s v).electronShellPositions = s.electronShellPositions ∧
    (setAtomPosition s v).electrons = s.electrons ∧
    (setAtomPosition s v).reconfigureCount = s.reconfigureCount ∧
    (∀ pid ∈ s.protons ++ s.neutrons,
      ((setNucleusOffset s w).store pid).dest = (s.store pid).dest + (w - s.nucleusOffset) ∧
      (((setNucleusOffset s w).store pid).pos = (s.store pid).pos + (w - s.nucleusOffset) ↔
        (s.store pid).pos = (s.store pid).dest)) ∧
    (∀ pid, pid ∉ s.protons ++ s.neutrons → (setNucleusOffset s w).store pid = s.store pid) ∧
    (setNucleusOffset s w).electronShellPositions = s.electronShellPositions ∧
    (setNucleusOffset s w).electrons = s.electrons ∧
    (setNucleusOffset s w).reconfigureCount = s.reconfigureCount := by
  have hdv : v - s.position ≠ 0 := sub_ne_zero_of_ne hv
  have hdw : w - s.nucleusOffset ≠ 0 := sub_ne_zero_of_ne hw
  have hsv : setAtomPosition s v =
      { translateNucleons s (v - s.position) with position := v } := by
    rw [setAtomPosition, if_neg hv]
  have hsw : setNucleusOffset s w =
      { translateNucleons s (w - s.nucleusOffset) with nucleusOffset := w } := by
    rw [setNucleusOffset, if_neg hw]
  refine ⟨?_, ?_, by rw [hsv]; rfl, by rw [hsv]; rfl, by rw [hsv]; rfl, ?_, ?_,
    by rw [hsw]; rfl, by rw [hsw]; rfl, by rw [hsw]; rfl⟩
  · intro pid hmem
    have hst : (setAtomPosition s v).store pid =
        translateParticle (v - s.position) (s.store pid) := by
      rw [hsv]
      exact foldl_update_nodup _ _ _ _ hnd hmem
    rw [hst]
    exact ⟨translateParticle_dest _ _, translateParticle_pos_iff _ hdv _⟩
  · intro pid hmem
    rw [hsv]
    exact foldl_update_not_mem _ _ _ _ hmem
  · intro pid hmem
    have hst : (setNucleusOffset s w).store pid =
        translateParticle (w - s.nucleusOffset) (s.store pid) := by
      rw [hsw]
      exact foldl_update_nodup _ _ _ _ hnd hmem
    rw [hst]
    exact ⟨translateParticle_dest _ _, translateParticle_pos_iff _ hdw _⟩
  · intro pid hmem
    rw [hsw]
    exact foldl_update_not_mem _ _ _ _ hmem

theorem C10_witness :
    (sC7.protons ++ sC7.neutrons).Nodup ∧ ((1, 0) : Vec) ≠ sC7.position ∧
    ((2, 0) : Vec) ≠ sC7.nucleusOffset ∧
    ((∀ pid ∈ sC7.protons ++ sC7.neutrons,
      ((setAtomPosition sC7 (1, 0)).store pid).dest =
        (sC7.store pid).dest + ((1, 0) - sC7.position) ∧
      (((setAtomPosition sC7 (1, 0)).store pid).pos =
          (sC7.store pid).pos + ((1, 0) - sC7.position) ↔
        (sC7.store pid).pos = (sC7.store pid).dest)) ∧
    (∀ pid, pid ∉ sC7.protons ++ sC7.neutrons →
      (setAtomPosition sC7 (1, 0)).store pid = sC7.store pid) ∧
    (setAtomPosition sC7 (1, 0)).electronShellPositions = sC7.electronShellPositions ∧
    (setAtomPosition sC7 (1, 0)).electrons = sC7.electrons ∧
    (setAtomPosition sC7 (1, 0)).reconfigureCount = sC7.reconfigureCount ∧
    (∀ pid ∈ sC7.protons ++ sC7.neutrons,
      ((setNucleusOffset sC7 (2, 0)).store pid).dest =
        (sC7.store pid).dest + ((2, 0) - sC7.nucleusOffset) ∧
      (((setNucleusOffset sC7 (2, 0)).store pid).pos =
          (sC7.store pid).pos + ((2, 0) - sC7.nucleusOffset) ↔
        (sC7.store pid).pos = (sC7.store pid).dest)) ∧
    (∀ pid, pid ∉ sC7.protons ++ sC7.neutrons →
      (setNucleusOffset sC7 (2, 0)).store pid = sC7.store pid) ∧
    (setNucleusOffset sC7 (2, 0)).electronShellPositions = sC7.electronShellPositions ∧
    (setNucleusOffset sC7 (2, 0)).electrons = sC7.electrons ∧
    (setNucleusOffset sC7 (2, 0)).reconfigureCount = sC7.reconfigureCount) :=
  ⟨by simp [sC7, initialAtom], by simp [sC7, initialAtom], by simp [sC7, initialAtom],
   C10_translation sC7 (1, 0) (2, 0) (by simp [sC7, initialAtom])
     (by simp [sC7, initialAtom]) (by simp [sC7, initialAtom])⟩

theorem removeAll_protons_phase :
    ∀ (l : List ℕ) (s : AtomState), l.Nodup → s.protons = l →
      ∃ s', removeAll l s = .ok s' ∧ s'.protons = [] ∧ s'.neutrons = s.neutrons ∧
        s'.electrons = s.electrons ∧ s'.reconfigureCount = s.reconfigureCount := by
  intro l
  induction l with
  | nil => intro s _ hp; exact ⟨s, rfl, hp, rfl, rfl, rfl⟩
  | cons a t ih =>
      intro s hnd hp
      have ha : a ∈ s.protons := by rw [hp]; exact List.mem_cons_self a t
      have h1 : removeParticle s a =
          .ok { s with protons := s.protons.erase a, store := setWatched s.store a false } := by
        rw [removeParticle, if_pos ha]
      have herase : s.protons.erase a = t := by rw [hp]; exact List.erase_cons_head a t
      obtain ⟨s', h2, h3, h4, h5, h6⟩ :=
        ih { s with protons := s.protons.erase a, store := setWatched s.store a false }
          (List.nodup_cons.mp hnd).2 herase
      refine ⟨s', ?_, h3, h4, h5, h6⟩
      rw [removeAll] at h2 ⊢
      simp only [List.foldlM_cons, h1]
      exact h2

theorem removeAll_neutrons_phase :
    ∀ (l : List ℕ) (s : AtomState), l.Nodup → s.neutrons = l → s.protons = [] →
      ∃ s', removeAll l s = .ok s' ∧ s'.neutrons = [] ∧ s'.protons = [] ∧
        s'.electrons = s.electrons ∧ s'.reconfigureCount = s.reconfigureCount := by
  intro l
  induction l with
  | nil => intro s _ hn hp; exact ⟨s, rfl, hn, hp, rfl, rfl⟩
  | cons a t ih =>
      intro s hnd hn hp
      have hap : a ∉ s.protons := by rw [hp]; exact List.not_mem_nil a
      have ha : a ∈ s.neutrons := by rw [hn]; exact List.mem_cons_self a t
      have h1 : removeParticle s a =
          .ok { s with neutrons := s.neutrons.erase a, store := setWatched s.store a false } := by
        rw [removeParticle, if_neg hap, if_pos ha]
      have herase : s.neutrons.erase a = t := by rw [hn]; exact List.erase_cons_head a t
      obtain ⟨s', h2, h3, h4, h5, h6⟩ :=
        ih { s with neutrons := s.neutrons.erase a, store := setWatched s.store a false }
          (List.nodup_cons.mp hnd).2 herase hp
      refine ⟨s', ?_, h3, h4, h5, h6⟩
      rw [removeAll] at h2 ⊢
      simp only [List.foldlM_cons, h1]
      exact h2

theorem removeAll_electrons_phase :
    ∀ (l : List ℕ) (s : AtomState), l.Nodup → s.electrons = l → s.protons = [] →
      s.neutrons = [] →
      ∃ s', removeAll l s = .ok s' ∧ s'.electrons = [] ∧ s'.protons = [] ∧
        s'.neutrons = [] ∧ s'.reconfigureCount = s.reconfigureCount := by
  intro l
  induction l with
  | nil => intro s _ hel hp hn; exact ⟨s, rfl, hel, hp, hn, rfl⟩
  | cons a t ih =>
      intro s hnd hel hp hn
      have hap : a ∉ s.protons := by rw [hp]; exact List.not_mem_nil a
      have han : a ∉ s.neutrons := by rw [hn]; exact List.not_mem_nil a
      have ha : a ∈ s.electrons := by rw [hel]; exact List.mem_cons_self a t
      have h1 : removeParticle s a =
          .ok { removeElectron s a with
                store := setWatched (removeElectron s a).store a false } := by
        rw [removeParticle, if_neg hap, if_neg han, if_pos ha]
      have herase : (removeElectron s a).electrons = t := by
        simp only [removeElectron, shellOnElectronRemoved]
        rw [hel]
        exact List.erase_cons_head a t
      have hrp : (removeElectron s a).protons = s.protons := by
        simp [removeElectron, shellOnElectronRemoved]
      have hrn : (removeElectron s a).neutrons = s.neutrons := by
        simp [removeElectron, shellOnElectronRemoved]
      have hrc : (removeElectron s a).reconfigureCount = s.reconfigureCount := by
        simp [removeElectron, shellOnElectronRemoved]
      obtain ⟨s', h2, h3, h4, h5, h6⟩ :=
        ih { removeElectron s a with
             store := setWatched (removeElectron s a).store a false }
          (List.nodup_cons.mp hnd).2 herase (by rw [← hp]; exact hrp) (by rw [← hn]; exact hrn)
      refine ⟨s', ?_, h3, h4, h5, by rw [h6]; exact hrc⟩
      rw [removeAll] at h2 ⊢
      simp only [List.foldlM_cons, h1]
      exact h2

/-- C9: given the membership invariants (no duplicate ids inside a
collection), `clear()` succeeds, leaves all three collections empty — the
removal callbacks (electron shell clearing/backfill) notwithstanding, since
each `forEach` runs over a snapshot — and `reconfigureNucleus` is never
invoked during the call (the reconfiguration counter is unchanged). -/
theorem C9_clear_spec (s : AtomState) (hp : s.protons.Nodup) (hn : s.neutrons.Nodup)
    (he : s.electrons.Nodup) :
    ∃ s', clearAtom s = .ok s' ∧ s'.protons = [] ∧ s'.neutrons = [] ∧ s'.electrons = [] ∧
      s'.reconfigureCount = s.reconfigureCount := by
  obtain ⟨s1, h1, h1p, h1n, h1e, h1c⟩ := removeAll_protons_phase s.protons s hp rfl
  obtain ⟨s2, h2, h2n, h2p, h2e, h2c⟩ :=
    removeAll_neutrons_phase s1.neutrons s1 (by rw [h1n]; exact hn) rfl h1p
  obtain ⟨s3, h3, h3e, h3p, h3n, h3c⟩ :=
    removeAll_electrons_phase s2.electrons s2 (by rw [h2e, h1e]; exact he) rfl h2p h2n
  refine ⟨s3, ?_, h3p, h3n, h3e, by rw [h3c, h2c, h1c]⟩
  rw [clearAtom]
  simp only [h1, h2, h3, bind, Except.bind]

/-- A concrete atom holding one proton, one neutron and one electron (with
empty shell table interaction: the electron is not in any slot, which `clear`
does not require). -/
noncomputable def sC9 : AtomState :=
  { initialAtom (fun _ => protonData) 3 85 130 with
    protons := [0], neutrons := [1], electrons := [2] }

theorem C9_witness :
    sC9.protons.Nodup ∧ sC9.neutrons.Nodup ∧ sC9.electrons.Nodup ∧
    ∃ s', clearAtom sC9 = .ok s' ∧ s'.protons = [] ∧ s'.neutrons = [] ∧ s'.electrons = [] ∧
      s'.reconfigureCount = sC9.reconfigureCount :=
  ⟨by simp [sC9, initialAtom], by simp [sC9, initialAtom], by simp [sC9, initialAtom],
   C9_clear_spec sC9 (by simp [sC9, initialAtom]) (by simp [sC9, initialAtom])
     (by simp [sC9, initialAtom])⟩

theorem configuratorRadius_eq (s t : AtomState)
    (h1 : s.protons = t.protons) (h2 : s.neutrons = t.neutrons)
    (h3 : s.position = t.position) (h4 : s.nucleusOffset = t.nucleusOffset)
    (h5 : s.nucleonRadius = t.nucleonRadius) :
    configuratorRadius s = configuratorRadius t := by
  rw [configuratorRadius, configuratorRadius, nucleonList, nucleonList, h1, h2, h3, h4, h5]

theorem reconfigure_radius_sync (t : AtomState) :
    (reconfigureNucleus t).nucleusRadius = configuratorRadius (reconfigureNucleus t) := by
  have h : configuratorRadius (reconfigureNucleus t) = configuratorRadius t :=
    configuratorRadius_eq _ _ rfl rfl rfl rfl rfl
  rw [h]
  rfl

/-- C6 (amended): `nucleusRadiusProperty` equals the configurator's value for
the current membership after the operations that do reconfigure — a nucleon
`addParticle` and an eviction triggered by `userControlledProperty` becoming
true.  (`removeParticle`, `extractParticle` and `clear` deliberately do not
reconfigure, so the property may be stale after them — see the
counterexample.) -/
theorem C6_radius_sync (s : AtomState) (pid : ℕ) (brand : Bool) :
    (((s.store pid).ptype = .proton ∨ (s.store pid).ptype = .neutron) →
      ¬ (brand = true ∧ containsParticle s pid) →
      (addParticle brand s pid).nucleusRadius =
        configuratorRadius (addParticle brand s pid)) ∧
    ((s.store pid).userControlled = false → (s.store pid).watched = true →
      (((s.store pid).ptype = .proton → pid ∈ s.protons →
        (setUserControlled s pid true).nucleusRadius =
          configuratorRadius (setUserControlled s pid true)) ∧
       ((s.store pid).ptype = .neutron → pid ∈ s.neutrons →
        (setUserControlled s pid true).nucleusRadius =
          configuratorRadius (setUserControlled s pid true)))) := by
  constructor
  · intro hty hg
    rcases hty with h | h <;>
    · rw [addParticle, if_neg hg, h]
      exact (reconfigure_radius_sync _).trans (configuratorRadius_eq _ _ rfl rfl rfl rfl rfl)
  · intro huc hw
    have hne : ¬ (s.store pid).userControlled = true := by rw [huc]; simp
    constructor
    · intro h hmem
      have hty : ((setUserCtrlFlag s.store pid true) pid).ptype = PType.proton := by
        rw [setUserCtrlFlag, Function.update_same]
        exact h
      rw [setUserControlled, if_neg hne, if_pos ⟨rfl, hw⟩, hty, if_pos hmem]
      exact (reconfigure_radius_sync _).trans (configuratorRadius_eq _ _ rfl rfl rfl rfl rfl)
    · intro h hmem
      have hty : ((setUserCtrlFlag s.store pid true) pid).ptype = PType.neutron := by
        rw [setUserCtrlFlag, Function.update_same]
        exact h
      rw [setUserControlled, if_neg hne, if_pos ⟨rfl, hw⟩, hty, if_pos hmem]
      exact (reconfigure_radius_sync _).trans (configuratorRadius_eq _ _ rfl rfl rfl rfl rfl)

theorem interleave_no_neutrons (q : ℚ) :
    ∀ (ps : List ℕ) (toAdd : ℚ), interleave q ps [] toAdd = ps := by
  intro ps
  induction ps with
  | nil => intro toAdd; rfl
  | cons p t ih => intro toAdd; simp [interleave, ih]

theorem nucleonList_protons_only (s : AtomState) (h : s.neutrons = []) :
    nucleonList s = s.protons := by
  rw [nucleonList, h, interleave_no_neutrons]

theorem setWatched_ptype (st : Store) (q : ℕ) (b : Bool) (pid : ℕ) :
    ((setWatched st q b) pid).ptype = (st pid).ptype := by
  rw [setWatched]
  rcases eq_or_ne pid q with rfl | hne
  · rw [Function.update_same]
  · rw [Function.update_noteq hne]

theorem applyAssignments_ptype (l : List (ℕ × Vec × ℕ)) :
    ∀ (st : Store) (pid : ℕ), ((applyAssignments st l) pid).ptype = (st pid).ptype := by
  induction l with
  | nil => intro st pid; rfl
  | cons a t ih =>
      intro st pid
      have h : applyAssignments st (a :: t) =
          applyAssignments
            (Function.update st a.1 { st a.1 with dest := a.2.1, zLayer := a.2.2 }) t := rfl
      rw [h, ih]
      rcases eq_or_ne pid a.1 with rfl | hne
      · rw [Function.update_same]
      · rw [Function.update_noteq hne]

/-- A fresh atom over a heap of proton records. -/
noncomputable def sC6 : AtomState := initialAtom (fun _ => protonData) 3 85 130

/-- The atom after adding protons 0 and 1. -/
noncomputable def sC6b : AtomState := addParticle false (addParticle false sC6 0) 1

/-- C6 counterexample: `removeParticle` (and therefore also `extractParticle`
and `clear`, which delegate to it) does not reconfigure the nucleus.  After
adding two protons (radius 2·nucleonRadius = 6) and removing one,
`nucleusRadiusProperty` still holds 6 while the configurator value for the
current one-proton membership is 3 — the property is stale. -/
theorem C6_counterexample :
    ∃ s', removeParticle sC6b 0 = .ok s' ∧ s'.nucleusRadius ≠ configuratorRadius s' := by
  have step1 : addParticle false sC6 0 =
      reconfigureNucleus { sC6 with protons := sC6.protons ++ [0],
                                    store := setWatched sC6.store 0 true } := by
    rw [addParticle, if_neg (by simp)]
    rfl
  have hAp : (addParticle false sC6 0).protons = [0] := by rw [step1]; rfl
  have hAn : (addParticle false sC6 0).neutrons = [] := by rw [step1]; rfl
  have hAr : (addParticle false sC6 0).nucleonRadius = (3 : ℝ) := by rw [step1]; rfl
  have g1 : ((addParticle false sC6 0).store 1).ptype = PType.proton := by
    rw [step1]
    show ((applyAssignments (setWatched sC6.store 0 true) _) 1).ptype = PType.proton
    rw [applyAssignments_ptype, setWatched_ptype]
    rfl
  have step2 : sC6b =
      reconfigureNucleus { addParticle false sC6 0 with
        protons := (addParticle false sC6 0).protons ++ [1],
        store := setWatched (addParticle false sC6 0).store 1 true } := by
    rw [sC6b, addParticle, if_neg (by simp), g1]
  have hBp : sC6b.protons = [0, 1] := by
    rw [step2]; show _ ++ [1] = _; rw [hAp]; rfl
  have hBn : sC6b.neutrons = [] := by rw [step2]; show (addParticle false sC6 0).neutrons = _; rw [hAn]
  have hBr : sC6b.nucleonRadius = (3 : ℝ) := by
    rw [step2]; show (addParticle false sC6 0).nucleonRadius = _; rw [hAr]
  have hBrad : sC6b.nucleusRadius = (6 : ℝ) := by
    rw [step2]
    show (configureNucleons (nucleonList _) _ _).2 = (6 : ℝ)
    rw [nucleonList_protons_only _ (by show (addParticle false sC6 0).neutrons = _; rw [hAn])]
    show (configureNucleons ((addParticle false sC6 0).protons ++ [1]) _
      (addParticle false sC6 0).nucleonRadius).2 = (6 : ℝ)
    rw [hAp, hAr]
    show (3 : ℝ) * 2 = 6
    norm_num
  have hmem : 0 ∈ sC6b.protons := by rw [hBp]; simp
  refine ⟨{ sC6b with protons := sC6b.protons.erase 0, store := setWatched sC6b.store 0 false },
    by rw [removeParticle, if_pos hmem], ?_⟩
  show sC6b.nucleusRadius ≠ configuratorRadius _
  rw [hBrad]
  rw [configuratorRadius, nucleonList_protons_only _ (by show sC6b.neutrons = []; exact hBn)]
  show (6 : ℝ) ≠ (configureNucleons (sC6b.protons.erase 0) _ sC6b.nucleonRadius).2
  rw [hBp, hBr]
  show (6 : ℝ) ≠ (configureNucleons ([0, 1].erase 0) _ 3).2
  norm_num [List.erase_cons_head, configureNucleons]

theorem list_len_two {α : Type} (l : List α) (h : l.length = 2) : ∃ a b, l = [a, b] := by
  rcases l with _ | ⟨a, _ | ⟨b, _ | ⟨x, t⟩⟩⟩
  · simp at h
  · simp at h
  · exact ⟨a, b, rfl⟩
  · simp at h

theorem list_len_three {α : Type} (l : List α) (h : l.length = 3) : ∃ a b d, l = [a, b, d] := by
  rcases l with _ | ⟨a, _ | ⟨b, _ | ⟨d, _ | ⟨x, t⟩⟩⟩⟩
  · simp at h
  · simp at h
  · simp at h
  · exact ⟨a, b, d, rfl⟩
  · simp at h

theorem list_len_four {α : Type} (l : List α) (h : l.length = 4) :
    ∃ a b d e, l = [a, b, d, e] := by
  rcases l with _ | ⟨a, _ | ⟨b, _ | ⟨d, _ | ⟨e, _ | ⟨x, t⟩⟩⟩⟩⟩
  · simp at h
  · simp at h
  · simp at h
  · simp at h
  · exact ⟨a, b, d, e, rfl⟩
  · simp at h

/-- The nucleus center: atom position plus nucleus offset. -/
def nucleusCenter (s : AtomState) : Vec := s.position + s.nucleusOffset

/-- The configurator's full output (assignments and radius) for the current
membership of an atom. -/
noncomputable def configuratorOutput (s : AtomState) : List (ℕ × Vec × ℕ) × ℝ :=
  configureNucleons (nucleonList s) (nucleusCenter s) s.nucleonRadius

theorem configureNucleons_two (a b : ℕ) (c : Vec) (r : ℝ) :
    configureNucleons [a, b] c r =
      ([(a, onCircle c r (0.2 * 2 * Real.pi), 0),
        (b, (c.1 - r * Real.cos (0.2 * 2 * Real.pi),
             c.2 - r * Real.sin (0.2 * 2 * Real.pi)), 0)], r * 2) := rfl

theorem configureNucleons_three (a b d : ℕ) (c : Vec) (r : ℝ) :
    configureNucleons [a, b, d] c r =
      ([(a, onCircle c (r * 1.155) (0.7 * 2 * Real.pi), 0),
        (b, onCircle c (r * 1.155) (0.7 * 2 * Real.pi + 2 * Real.pi / 3), 0),
        (d, onCircle c (r * 1.155) (0.7 * 2 * Real.pi + 4 * Real.pi / 3), 0)],
       r * 1.155 + r) := rfl

theorem configureNucleons_four (a b d e : ℕ) (c : Vec) (r : ℝ) :
    configureNucleons [a, b, d, e] c r =
      ([(a, onCircle c r (1.4 * 2 * Real.pi), 0),
        (b, onCircle c (r * 2 * Real.cos (Real.pi / 3)) (1.4 * 2 * Real.pi + Real.pi / 2), 1),
        (d, (c.1 - r * Real.cos (1.4 * 2 * Real.pi),
             c.2 - r * Real.sin (1.4 * 2 * Real.pi)), 0),
        (e, (c.1 - r * 2 * Real.cos (Real.pi / 3) * Real.cos (1.4 * 2 * Real.pi + Real.pi / 2),
             c.2 - r * 2 * Real.cos (Real.pi / 3) * Real.sin (1.4 * 2 * Real.pi + Real.pi / 2)),
         1)],
       r * 2 * Real.cos (Real.pi / 3) + r) := rfl

theorem neg_onCircle (c : Vec) (R θ : ℝ) :
    ((c.1 - R * Real.cos θ, c.2 - R * Real.sin θ) : Vec) = onCircle c (-R) θ := by
  simp only [onCircle, Prod.mk.injEq]
  constructor <;> ring

theorem vdist_onCircle_center_abs (c : Vec) (R θ : ℝ) :
    vdist (onCircle c R θ) c = |R| := by
  have hpy := Real.sin_sq_add_cos_sq θ
  rw [vdist, onCircle, vmag, Prod.fst_sub, Prod.snd_sub]
  have h2 : ((c.1 + R * Real.cos θ, c.2 + R * Real.sin θ) : Vec).1 - c.1 = R * Real.cos θ := by
    norm_num
  have h3 : ((c.1 + R * Real.cos θ, c.2 + R * Real.sin θ) : Vec).2 - c.2 = R * Real.sin θ := by
    norm_num
  rw [h2, h3]
  have h4 : (R * Real.cos θ) ^ 2 + (R * Real.sin θ) ^ 2 = R ^ 2 := by nlinarith
  rw [h4, Real.sqrt_sq_eq_abs]

theorem cos_neg_four_thirds_pi :
    Real.cos (-(4 * Real.pi / 3)) = Real.cos (-(2 * Real.pi / 3)) := by
  rw [Real.cos_neg, Real.cos_neg,
    show (4 * Real.pi / 3 : ℝ) = 2 * Real.pi - 2 * Real.pi / 3 by ring,
    Real.cos_two_pi_sub]

/-- The tabulated 0–4 nucleon layouts of §4.4, as a property of the
configurator output of an atom: the exact destination/layer assignments, the
resulting nucleus radius, the distance-from-center facts, the two-nucleon
symmetry about the center, and the three-nucleon equilateral triangle. -/
def C1Layouts (s : AtomState) : Prop :=
  (protonCount s + neutronCount s = 0 →
    (configuratorOutput s).1 = [] ∧ (configuratorOutput s).2 = s.nucleonRadius) ∧
  (protonCount s + neutronCount s = 1 →
    (∃ a, (configuratorOutput s).1 = [(a, nucleusCenter s, 0)]) ∧
    (configuratorOutput s).2 = s.nucleonRadius) ∧
  (protonCount s + neutronCount s = 2 →
    (∃ a b, (configuratorOutput s).1 =
      [(a, onCircle (nucleusCenter s) s.nucleonRadius (0.4 * Real.pi), 0),
       (b, ((nucleusCenter s).1 - s.nucleonRadius * Real.cos (0.4 * Real.pi),
            (nucleusCenter s).2 - s.nucleonRadius * Real.sin (0.4 * Real.pi)), 0)]) ∧
    (configuratorOutput s).2 = 2 * s.nucleonRadius ∧
    vdist (onCircle (nucleusCenter s) s.nucleonRadius (0.4 * Real.pi)) (nucleusCenter s) =
      s.nucleonRadius ∧
    vdist (((nucleusCenter s).1 - s.nucleonRadius * Real.cos (0.4 * Real.pi),
            (nucleusCenter s).2 - s.nucleonRadius * Real.sin (0.4 * Real.pi)))
        (nucleusCenter s) = s.nucleonRadius ∧
    onCircle (nucleusCenter s) s.nucleonRadius (0.4 * Real.pi) +
      (((nucleusCenter s).1 - s.nucleonRadius * Real.cos (0.4 * Real.pi),
        (nucleusCenter s).2 - s.nucleonRadius * Real.sin (0.4 * Real.pi)) : Vec) =
      nucleusCenter s + nucleusCenter s) ∧
  (protonCount s + neutronCount s = 3 →
    (∃ a b d, (configuratorOutput s).1 =
      [(a, onCircle (nucleusCenter s) (s.nucleonRadius * 1.155) (1.4 * Real.pi), 0),
       (b, onCircle (nucleusCenter s) (s.nucleonRadius * 1.155)
             (1.4 * Real.pi + 2 * Real.pi / 3), 0),
       (d, onCircle (nucleusCenter s) (s.nucleonRadius * 1.155)
             (1.4 * Real.pi + 4 * Real.pi / 3), 0)]) ∧
    (configuratorOutput s).2 = s.nucleonRadius * 1.155 + s.nucleonRadius ∧
    (∀ θ : ℝ, vdist (onCircle (nucleusCenter s) (s.nucleonRadius * 1.155) θ)
        (nucleusCenter s) = s.nucleonRadius * 1.155) ∧
    vdist (onCircle (nucleusCenter s) (s.nucleonRadius * 1.155) (1.4 * Real.pi))
        (onCircle (nucleusCenter s) (s.nucleonRadius * 1.155) (1.4 * Real.pi + 2 * Real.pi / 3)) =
      vdist (onCircle (nucleusCenter s) (s.nucleonRadius * 1.155) (1.4 * Real.pi + 2 * Real.pi / 3))
        (onCircle (nucleusCenter s) (s.nucleonRadius * 1.155) (1.4 * Real.pi + 4 * Real.pi / 3)) ∧
    vdist (onCircle (nucleusCenter s) (s.nucleonRadius * 1.155) (1.4 * Real.pi))
        (onCircle (nucleusCenter s) (s.nucleonRadius * 1.155) (1.4 * Real.pi + 4 * Real.pi / 3)) =
      vdist (onCircle (nucleusCenter s) (s.nucleonRadius * 1.155) (1.4 * Real.pi + 2 * Real.pi / 3))
        (onCircle (nucleusCenter s) (s.nucleonRadius * 1.155) (1.4 * Real.pi + 4 * Real.pi / 3))) ∧
  (protonCount s + neutronCount s = 4 →
    (∃ a b d e, (configuratorOutput s).1 =
      [(a, onCircle (nucleusCenter s) s.nucleonRadius (2.8 * Real.pi), 0),
       (b, onCircle (nucleusCenter s) (s.nucleonRadius * 2 * Real.cos (Real.pi / 3))
             (2.8 * Real.pi + Real.pi / 2), 1),
       (d, ((nucleusCenter s).1 - s.nucleonRadius * Real.cos (2.8 * Real.pi),
            (nucleusCenter s).2 - s.nucleonRadius * Real.sin (2.8 * Real.pi)), 0),
       (e, ((nucleusCenter s).1 -
              s.nucleonRadius * 2 * Real.cos (Real.pi / 3) *
                Real.cos (2.8 * Real.pi + Real.pi / 2),
            (nucleusCenter s).2 -
              s.nucleonRadius * 2 * Real.cos (Real.pi / 3) *
                Real.sin (2.8 * Real.pi + Real.pi / 2)), 1)]) ∧
    (configuratorOutput s).2 =
      s.nucleonRadius * 2 * Real.cos (Real.pi / 3) + s.nucleonRadius ∧
    vdist (onCircle (nucleusCenter s) s.nucleonRadius (2.8 * Real.pi)) (nucleusCenter s) =
      s.nucleonRadius ∧
    vdist (onCircle (nucleusCenter s) (s.nucleonRadius * 2 * Real.cos (Real.pi / 3))
        (2.8 * Real.pi + Real.pi / 2)) (nucleusCenter s) =
      s.nucleonRadius * 2 * Real.cos (Real.pi / 3))

/-- C1: for every atom and nonnegative nucleon radius, the configurator (the
core of `reconfigureNucleus`) produces exactly the tabulated layouts for 0–4
nucleons, with the exact radii, the two-nucleon symmetry about the center and
the three-nucleon equilateral triangle of circumradius `nucleonRadius × 1.155`
(exact real arithmetic subsumes the claimed 1e-9 tolerance). -/
theorem C1_small_layouts (s : AtomState) (hr : 0 ≤ s.nucleonRadius) : C1Layouts s := by
  have hlen := nucleonList_length s
  rw [C1Layouts]
  set r := s.nucleonRadius with hrdef
  set c := nucleusCenter s with hcdef
  have hang2 : (0.2 : ℝ) * 2 * Real.pi = 0.4 * Real.pi := by norm_num
  have hang3 : (0.7 : ℝ) * 2 * Real.pi = 1.4 * Real.pi := by norm_num
  have hang4 : (1.4 : ℝ) * 2 * Real.pi = 2.8 * Real.pi := by norm_num
  refine ⟨?_, ?_, ?_, ?_, ?_⟩
  · intro h0
    have hl : nucleonList s = [] := List.length_eq_zero.mp (by rw [hlen]; exact h0)
    rw [configuratorOutput, hl]
    exact ⟨rfl, rfl⟩
  · intro h1
    obtain ⟨a, hl⟩ := List.length_eq_one.mp (show (nucleonList s).length = 1 by
      rw [hlen]; exact h1)
    rw [configuratorOutput, hl]
    exact ⟨⟨a, rfl⟩, rfl⟩
  · intro h2
    obtain ⟨a, b, hl⟩ := list_len_two _ (show (nucleonList s).length = 2 by
      rw [hlen]; exact h2)
    refine ⟨⟨a, b, ?_⟩, ?_, ?_, ?_, ?_⟩
    · rw [configuratorOutput, hl, configureNucleons_two, hang2]
    · rw [configuratorOutput, hl, configureNucleons_two]
      show r * 2 = 2 * r
      ring
    · exact vdist_onCircle_center c r (0.4 * Real.pi) hr
    · rw [neg_onCircle, vdist_onCircle_center_abs, abs_neg, abs_of_nonneg hr]
    · simp only [Prod.ext_iff, onCircle, Prod.fst_add, Prod.snd_add]
      constructor <;> ring
  · intro h3
    obtain ⟨a, b, d, hl⟩ := list_len_three _ (show (nucleonList s).length = 3 by
      rw [hlen]; exact h3)
    have hR : (0 : ℝ) ≤ r * 1.155 := by nlinarith
    refine ⟨⟨a, b, d, ?_⟩, ?_, ?_, ?_, ?_⟩
    · rw [configuratorOutput, hl, configureNucleons_three, hang3]
    · rw [configuratorOutput, hl, configureNucleons_three]
    · intro θ
      exact vdist_onCircle_center c (r * 1.155) θ hR
    · rw [vdist_onCircle_chord, vdist_onCircle_chord,
        show (1.4 * Real.pi) - (1.4 * Real.pi + 2 * Real.pi / 3) = -(2 * Real.pi / 3) by ring,
        show (1.4 * Real.pi + 2 * Real.pi / 3) - (1.4 * Real.pi + 4 * Real.pi / 3) =
          -(2 * Real.pi / 3) by ring]
    · rw [vdist_onCircle_chord, vdist_onCircle_chord,
        show (1.4 * Real.pi) - (1.4 * Real.pi + 4 * Real.pi / 3) = -(4 * Real.pi / 3) by ring,
        show (1.4 * Real.pi + 2 * Real.pi / 3) - (1.4 * Real.pi + 4 * Real.pi / 3) =
          -(2 * Real.pi / 3) by ring,
        cos_neg_four_thirds_pi]
  · intro h4
    obtain ⟨a, b, d, e, hl⟩ := list_len_four _ (show (nucleonList s).length = 4 by
      rw [hlen]; exact h4)
    have hD : (0 : ℝ) ≤ r * 2 * Real.cos (Real.pi / 3) := by
      rw [Real.cos_pi_div_three]; linarith
    refine ⟨⟨a, b, d, e, ?_⟩, ?_, ?_, ?_⟩
    · rw [configuratorOutput, hl, configureNucleons_four, hang4]
    · rw [configuratorOutput, hl, configureNucleons_four]
    · exact vdist_onCircle_center c r (2.8 * Real.pi) hr
    · exact vdist_onCircle_center c (r * 2 * Real.cos (Real.pi / 3))
        (2.8 * Real.pi + Real.pi / 2) hD

theorem C1_witness : (0 : ℝ) ≤ sC6.nucleonRadius ∧ C1Layouts sC6 :=
  ⟨zero_le_three, C1_small_layouts sC6 zero_le_three⟩

theorem ringPlace_fst_nil (c : Vec) (r sf : ℝ) (st : RingState) :
    (ringPlace c r sf [] st).1 = [] := rfl

theorem ringPlace_snd_nil (c : Vec) (r sf : ℝ) (st : RingState) :
    (ringPlace c r sf [] st).2 = st := rfl

theorem ringPlace_fst_cons (c : Vec) (r sf : ℝ) (p : ℕ) (l : List ℕ) (st : RingState) :
    (ringPlace c r sf (p :: l) st).1 =
      (p, onCircle c st.placementRadius st.placementAngle, st.level) ::
        (ringPlace c r sf l (ringStep r sf st)).1 := rfl

theorem ringPlace_snd_cons (c : Vec) (r sf : ℝ) (p : ℕ) (l : List ℕ) (st : RingState) :
    (ringPlace c r sf (p :: l) st).2 = (ringPlace c r sf l (ringStep r sf st)).2 := rfl

theorem ringStep_radius_mono (r sf : ℝ) (h : 0 ≤ r * sf) (st : RingState) :
    st.placementRadius ≤ (ringStep r sf st).placementRadius := by
  rw [ringStep]
  split
  · exact le_refl _
  · show st.placementRadius ≤ st.placementRadius + r * sf / ((st.level + 1 : ℕ) : ℝ)
    have hpos : (0 : ℝ) < ((st.level + 1 : ℕ) : ℝ) := by positivity
    have := div_nonneg h (le_of_lt hpos)
    linarith

theorem ringStep_level_mono (r sf : ℝ) (st : RingState) :
    st.level ≤ (ringStep r sf st).level := by
  rw [ringStep]
  split
  · exact le_refl _
  · exact Nat.le_succ _

theorem ringPlace_radius_mono (c : Vec) (r sf : ℝ) (h : 0 ≤ r * sf) :
    ∀ (l : List ℕ) (st : RingState),
      st.placementRadius ≤ (ringPlace c r sf l st).2.placementRadius := by
  intro l
  induction l with
  | nil => intro st; exact le_refl _
  | cons p rest ih =>
      intro st
      rw [ringPlace_snd_cons]
      exact le_trans (ringStep_radius_mono r sf h st) (ih (ringStep r sf st))

theorem ringPlace_layers (c : Vec) (r sf : ℝ) :
    ∀ (l : List ℕ) (st : RingState),
      List.Chain' (· ≤ ·) (((ringPlace c r sf l st).1).map (fun a => a.2.2)) ∧
      ∀ y ∈ ((ringPlace c r sf l st).1).map (fun a => a.2.2), st.level ≤ y := by
  intro l
  induction l with
  | nil => intro st; exact ⟨List.chain'_nil, by simp [ringPlace_fst_nil]⟩
  | cons p rest ih =>
      intro st
      obtain ⟨ihc, ihb⟩ := ih (ringStep r sf st)
      rw [ringPlace_fst_cons, List.map_cons]
      constructor
      · refine List.chain'_cons'.mpr ⟨?_, ihc⟩
        intro y hy
        exact le_trans (ringStep_level_mono r sf st)
          (ihb y (List.mem_of_mem_head? hy))
      · intro y hy
        rcases List.mem_cons.mp hy with rfl | hmem
        · exact le_refl _
        · exact le_trans (ringStep_level_mono r sf st) (ihb y hmem)

theorem configureNucleons_ge5 (a b d e f : ℕ) (rest : List ℕ) (c : Vec) (r : ℝ) :
    configureNucleons (a :: b :: d :: e :: f :: rest) c r =
      ((ringPlace c r (scaleFactorOf r) (a :: b :: d :: e :: f :: rest) ringInit).1,
       (ringPlace c r (scaleFactorOf r) (a :: b :: d :: e :: f :: rest)
         ringInit).2.placementRadius + r) := rfl

theorem list_len_ge5 {α : Type} (l : List α) (h : 5 ≤ l.length) :
    ∃ a b d e f t, l = a :: b :: d :: e :: f :: t := by
  rcases l with _ | ⟨a, _ | ⟨b, _ | ⟨d, _ | ⟨e, _ | ⟨f, t⟩⟩⟩⟩⟩
  · simp at h
  · simp at h
  · simp at h
  · simp at h
  · simp at h
  · exact ⟨a, b, d, e, f, t, rfl⟩

theorem scaleFactorOf_gt_one (r : ℝ) (h3 : 3 ≤ r) (h10 : r ≤ 10) : 1 < scaleFactorOf r := by
  rw [scaleFactorOf, linearFunction]
  nlinarith [h3, h10]

theorem ringStep_init_radius (r sf : ℝ) :
    (ringStep r sf ringInit).placementRadius = r * sf := by
  rw [ringStep, ringInit]
  norm_num

theorem ringStep_stay (r sf : ℝ) (st : RingState) (h : st.numAtThisRadius - 1 > 0) :
    (ringStep r sf st).placementRadius = st.placementRadius ∧
    (ringStep r sf st).numAtThisRadius = st.numAtThisRadius - 1 ∧
    (ringStep r sf st).level = st.level := by
  rw [ringStep, if_pos h]
  exact ⟨rfl, rfl, rfl⟩

theorem ringStep_advance (r sf : ℝ) (st : RingState) (h : ¬ st.numAtThisRadius - 1 > 0) :
    (ringStep r sf st).placementRadius =
      st.placementRadius + r * sf / ((st.level + 1 : ℕ) : ℝ) ∧
    (ringStep r sf st).numAtThisRadius =
      ⌊(st.placementRadius + r * sf / ((st.level + 1 : ℕ) : ℝ)) * Real.pi / r⌋ ∧
    (ringStep r sf st).level = st.level + 1 := by
  rw [ringStep, if_neg h]
  exact ⟨rfl, rfl, rfl⟩

/-- C2 (amended): for every atom with at least 5 nucleons and a nucleon
radius inside the calibrated range `[3, 10]`, the resulting nucleus radius is
the placement radius of the loop's final state plus the nucleon radius (when
the last nucleon exactly fills its ring, the loop has already advanced past
that ring, so this exceeds "last ring's placement radius + nucleonRadius" —
see the counterexample), is strictly greater than the radius computed for any
4-nucleon membership, and the display layers are monotonically non-decreasing
along the placement order (layer = ring index). -/
theorem C2_ring_layout (s : AtomState) (hr3 : 3 ≤ s.nucleonRadius)
    (hr10 : s.nucleonRadius ≤ 10) (h5 : 5 ≤ protonCount s + neutronCount s) :
    (configuratorOutput s).2 =
      (ringPlace (nucleusCenter s) s.nucleonRadius (scaleFactorOf s.nucleonRadius)
        (nucleonList s) ringInit).2.placementRadius + s.nucleonRadius ∧
    (∀ l4 : List ℕ, l4.length = 4 →
      (configureNucleons l4 (nucleusCenter s) s.nucleonRadius).2 < (configuratorOutput s).2) ∧
    List.Chain' (· ≤ ·) ((configuratorOutput s).1.map (fun a => a.2.2)) := by
  obtain ⟨a, b, d, e, f, t, hl⟩ := list_len_ge5 (nucleonList s)
    (by rw [nucleonList_length]; exact h5)
  have hrpos : (0 : ℝ) < s.nucleonRadius := by linarith
  have hsf1 : 1 < scaleFactorOf s.nucleonRadius := scaleFactorOf_gt_one _ hr3 hr10
  have hrsf : 0 ≤ s.nucleonRadius * scaleFactorOf s.nucleonRadius := by nlinarith
  have hrad : (configuratorOutput s).2 =
      (ringPlace (nucleusCenter s) s.nucleonRadius (scaleFactorOf s.nucleonRadius)
        (nucleonList s) ringInit).2.placementRadius + s.nucleonRadius := by
    rw [configuratorOutput, hl, configureNucleons_ge5]
  refine ⟨hrad, ?_, ?_⟩
  · intro l4 h4
    obtain ⟨w, x, y, z, hl4⟩ := list_len_four l4 h4
    rw [hl4, configureNucleons_four, hrad]
    show s.nucleonRadius * 2 * Real.cos (Real.pi / 3) + s.nucleonRadius < _
    rw [Real.cos_pi_div_three]
    have hge : s.nucleonRadius * scaleFactorOf s.nucleonRadius ≤
        (ringPlace (nucleusCenter s) s.nucleonRadius (scaleFactorOf s.nucleonRadius)
          (nucleonList s) ringInit).2.placementRadius := by
      rw [hl, ringPlace_snd_cons, ← ringStep_init_radius s.nucleonRadius
        (scaleFactorOf s.nucleonRadius)]
      exact ringPlace_radius_mono _ _ _ hrsf _ _
    nlinarith
  · have h1 : (configuratorOutput s).1 =
        (ringPlace (nucleusCenter s) s.nucleonRadius (scaleFactorOf s.nucleonRadius)
          (nucleonList s) ringInit).1 := by
      rw [configuratorOutput, hl, configureNucleons_ge5]
    rw [h1]
    exact (ringPlace_layers _ _ _ (nucleonList s) ringInit).1

/-- A concrete atom holding five protons with nucleon radius 3. -/
noncomputable def sC2 : AtomState :=
  { initialAtom (fun _ => protonData) 3 85 130 with protons := [0, 1, 2, 3, 4] }

theorem C2_witness :
    (3 : ℝ) ≤ sC2.nucleonRadius ∧ sC2.nucleonRadius ≤ 10 ∧
    5 ≤ protonCount sC2 + neutronCount sC2 ∧
    ((configuratorOutput sC2).2 =
      (ringPlace (nucleusCenter sC2) sC2.nucleonRadius (scaleFactorOf sC2.nucleonRadius)
        (nucleonList sC2) ringInit).2.placementRadius + sC2.nucleonRadius ∧
    (∀ l4 : List ℕ, l4.length = 4 →
      (configureNucleons l4 (nucleusCenter sC2) sC2.nucleonRadius).2 <
        (configuratorOutput sC2).2) ∧
    List.Chain' (· ≤ ·) ((configuratorOutput sC2).1.map (fun a => a.2.2))) :=
  ⟨le_refl _, by show (3 : ℝ) ≤ 10; norm_num, by show 5 ≤ 5 + 0; norm_num,
   C2_ring_layout sC2 (le_refl _) (by show (3 : ℝ) ≤ 10; norm_num)
     (by show 5 ≤ 5 + 0; norm_num)⟩

theorem floor_14pi : (⌊(1.4 : ℝ) * Real.pi⌋ : ℤ) = 4 := by
  rw [Int.floor_eq_iff]
  constructor
  · push_cast
    nlinarith [Real.pi_gt_three]
  · push_cast
    nlinarith [Real.pi_lt_d2]

/-- C2 counterexample: with nucleon radius 29/3 the scale factor is exactly
1.4, ring 1 holds `⌊1.4π⌋ = 4` nucleons, so the fifth nucleon exactly fills
ring 1; the loop then advances to ring 2, and the resulting nucleus radius is
the advanced radius plus the nucleon radius (203/10 + 29/3), not the last
ring's placement radius plus the nucleon radius (203/15 + 29/3) as the claim
states. -/
theorem C2_counterexample :
    ∃ last5, (configureNucleons [0, 1, 2, 3, 4] ((0, 0) : Vec) (29/3)).1.getLast? =
        some last5 ∧
      (configureNucleons [0, 1, 2, 3, 4] ((0, 0) : Vec) (29/3)).2 ≠
        vdist last5.2.1 ((0, 0) : Vec) + 29/3 := by
  have hsf : scaleFactorOf (29/3 : ℝ) = 1.4 := by
    rw [scaleFactorOf, linearFunction]
    norm_num
  have h1r : (ringStep (29/3 : ℝ) 1.4 ringInit).placementRadius = 203/15 := by
    rw [(ringStep_advance (29/3) 1.4 ringInit (by decide)).1]
    show (0 : ℝ) + 29/3 * 1.4 / ((0 + 1 : ℕ) : ℝ) = 203/15
    norm_num
  have h1n : (ringStep (29/3 : ℝ) 1.4 ringInit).numAtThisRadius = 4 := by
    rw [(ringStep_advance (29/3) 1.4 ringInit (by decide)).2.1]
    show (⌊((0 : ℝ) + 29/3 * 1.4 / ((0 + 1 : ℕ) : ℝ)) * Real.pi / (29/3)⌋ : ℤ) = 4
    rw [show ((0 : ℝ) + 29/3 * 1.4 / ((0 + 1 : ℕ) : ℝ)) * Real.pi / (29/3) =
        1.4 * Real.pi by push_cast; ring]
    exact floor_14pi
  have h1l : (ringStep (29/3 : ℝ) 1.4 ringInit).level = 1 := by
    rw [(ringStep_advance (29/3) 1.4 ringInit (by decide)).2.2]
    rfl
  have hc2 : (ringStep (29/3 : ℝ) 1.4 ringInit).numAtThisRadius - 1 > 0 := by
    rw [h1n]; decide
  have h2r : (ringStep (29/3 : ℝ) 1.4 (ringStep (29/3) 1.4 ringInit)).placementRadius =
      203/15 := by
    rw [(ringStep_stay (29/3) 1.4 _ hc2).1, h1r]
  have h2n : (ringStep (29/3 : ℝ) 1.4 (ringStep (29/3) 1.4 ringInit)).numAtThisRadius = 3 := by
    rw [(ringStep_stay (29/3) 1.4 _ hc2).2.1, h1n]
    decide
  have h2l : (ringStep (29/3 : ℝ) 1.4 (ringStep (29/3) 1.4 ringInit)).level = 1 := by
    rw [(ringStep_stay (29/3) 1.4 _ hc2).2.2, h1l]
  have hc3 : (ringStep (29/3 : ℝ) 1.4 (ringStep (29/3) 1.4 ringInit)).numAtThisRadius - 1 >
      0 := by
    rw [h2n]; decide
  have h3r : (ringStep (29/3 : ℝ) 1.4 (ringStep (29/3) 1.4 (ringStep (29/3) 1.4
      ringInit))).placementRadius = 203/15 := by
    rw [(ringStep_stay (29/3) 1.4 _ hc3).1, h2r]
  have h3n : (ringStep (29/3 : ℝ) 1.4 (ringStep (29/3) 1.4 (ringStep (29/3) 1.4
      ringInit))).numAtThisRadius = 2 := by
    rw [(ringStep_stay (29/3) 1.4 _ hc3).2.1, h2n]
    decide
  have h3l : (ringStep (29/3 : ℝ) 1.4 (ringStep (29/3) 1.4 (ringStep (29/3) 1.4
      ringInit))).level = 1 := by
    rw [(ringStep_stay (29/3) 1.4 _ hc3).2.2, h2l]
  have hc4 : (ringStep (29/3 : ℝ) 1.4 (ringStep (29/3) 1.4 (ringStep (29/3) 1.4
      ringInit))).numAtThisRadius - 1 > 0 := by
    rw [h3n]; decide
  have h4r : (ringStep (29/3 : ℝ) 1.4 (ringStep (29/3) 1.4 (ringStep (29/3) 1.4
      (ringStep (29/3) 1.4 ringInit)))).placementRadius = 203/15 := by
    rw [(ringStep_stay (29/3) 1.4 _ hc4).1, h3r]
  have h4n : (ringStep (29/3 : ℝ) 1.4 (ringStep (29/3) 1.4 (ringStep (29/3) 1.4
      (ringStep (29/3) 1.4 ringInit)))).numAtThisRadius = 1 := by
    rw [(ringStep_stay (29/3) 1.4 _ hc4).2.1, h3n]
    decide
  have h4l : (ringStep (29/3 : ℝ) 1.4 (ringStep (29/3) 1.4 (ringStep (29/3) 1.4
      (ringStep (29/3) 1.4 ringInit)))).level = 1 := by
    rw [(ringStep_stay (29/3) 1.4 _ hc4).2.2, h3l]
  have hc5 : ¬ (ringStep (29/3 : ℝ) 1.4 (ringStep (29/3) 1.4 (ringStep (29/3) 1.4
      (ringStep (29/3) 1.4 ringInit)))).numAtThisRadius - 1 > 0 := by
    rw [h4n]; decide
  have h5r : (ringStep (29/3 : ℝ) 1.4 (ringStep (29/3) 1.4 (ringStep (29/3) 1.4
      (ringStep (29/3) 1.4 (ringStep (29/3) 1.4 ringInit))))).placementRadius = 203/10 := by
    rw [(ringStep_advance (29/3) 1.4 _ hc5).1, h4r, h4l]
    show (203/15 : ℝ) + 29/3 * 1.4 / ((1 + 1 : ℕ) : ℝ) = 203/10
    norm_num
  have hsnd : (configureNucleons [0, 1, 2, 3, 4] ((0, 0) : Vec) (29/3 : ℝ)).2 =
      (ringStep (29/3) 1.4 (ringStep (29/3) 1.4 (ringStep (29/3) 1.4 (ringStep (29/3) 1.4
        (ringStep (29/3) 1.4 ringInit))))).placementRadius + 29/3 := by
    rw [show (configureNucleons [0, 1, 2, 3, 4] ((0, 0) : Vec) (29/3 : ℝ)).2 =
        (ringPlace ((0, 0) : Vec) (29/3) (scaleFactorOf (29/3)) [0, 1, 2, 3, 4]
          ringInit).2.placementRadius + 29/3 from rfl, hsf]
    simp only [ringPlace_snd_cons, ringPlace_snd_nil]
  refine ⟨(4, onCircle ((0, 0) : Vec)
      (ringStep (29/3) 1.4 (ringStep (29/3) 1.4 (ringStep (29/3) 1.4 (ringStep (29/3) 1.4
        ringInit)))).placementRadius
      (ringStep (29/3) 1.4 (ringStep (29/3) 1.4 (ringStep (29/3) 1.4 (ringStep (29/3) 1.4
        ringInit)))).placementAngle,
      (ringStep (29/3) 1.4 (ringStep (29/3) 1.4 (ringStep (29/3) 1.4 (ringStep (29/3) 1.4
        ringInit)))).level), ?_, ?_⟩
  · rw [show (configureNucleons [0, 1, 2, 3, 4] ((0, 0) : Vec) (29/3 : ℝ)).1 =
        (ringPlace ((0, 0) : Vec) (29/3) (scaleFactorOf (29/3)) [0, 1, 2, 3, 4]
          ringInit).1 from rfl, hsf]
    simp only [ringPlace_fst_cons, ringPlace_fst_nil]
    rfl
  · rw [hsnd]
    show _ ≠ vdist (onCircle ((0, 0) : Vec)
      (ringStep (29/3) 1.4 (ringStep (29/3) 1.4 (ringStep (29/3) 1.4 (ringStep (29/3) 1.4
        ringInit)))).placementRadius
      (ringStep (29/3) 1.4 (ringStep (29/3) 1.4 (ringStep (29/3) 1.4 (ringStep (29/3) 1.4
        ringInit)))).placementAngle) ((0, 0) : Vec) + 29/3
    rw [vdist_onCircle_center_abs, h4r, h5r,
      abs_of_nonneg (by norm_num : (0 : ℝ) ≤ 203 / 15)]
    norm_num

theorem sortSlotsBy_perm (key : Slot → ℝ) (l : List Slot) :
    (sortSlotsBy key l).Perm l :=
  List.perm_insertionSort _ l

theorem sortSlotsBy_sorted (key : Slot → ℝ) (l : List Slot) :
    List.Sorted (fun a b => key a ≤ key b) (sortSlotsBy key l) := by
  haveI : IsTotal Slot (fun a b => key a ≤ key b) := ⟨fun a b => le_total _ _⟩
  haveI : IsTrans Slot (fun a b => key a ≤ key b) := ⟨fun a b c hab hbc => le_trans hab hbc⟩
  exact List.sorted_insertionSort _ l

theorem sortSlotsBy_head_min (key : Slot → ℝ) (l : List Slot) (ch : Slot) (tl : List Slot)
    (h : sortSlotsBy key l = ch :: tl) :
    ch ∈ l ∧ ∀ u ∈ l, key ch ≤ key u := by
  have hperm := sortSlotsBy_perm key l
  have hsorted := sortSlotsBy_sorted key l
  rw [h] at hperm hsorted
  refine ⟨hperm.subset (List.mem_cons_self ch tl), ?_⟩
  intro u hu
  have hu2 : u ∈ ch :: tl := hperm.mem_iff.mpr hu
  rcases List.mem_cons.mp hu2 with rfl | hmem
  · exact le_refl _
  · exact List.rel_of_sorted_cons hsorted u hmem

theorem addParticle_electron (brand : Bool) (s : AtomState) (pid : ℕ)
    (hty : (s.store pid).ptype = .electron) (hg : ¬ (brand = true ∧ containsParticle s pid))
    (ch : Slot) (tl : List Slot)
    (hsort : sortSlotsBy (fun t => vdist s.position t.position)
        (sortSlotsBy (fun t => vdist (s.store pid).pos t.position)
          (s.electronShellPositions.filter (fun t => decide (t.electron = none)))) =
        ch :: tl) :
    addParticle brand s pid =
      { s with
        electrons := s.electrons ++ [pid]
        electronShellPositions := s.electronShellPositions.map (fun t =>
          if t.idx = ch.idx then { t with electron := some pid } else t)
        store := setWatched (setDest s.store pid ch.position) pid true } := by
  rw [addParticle, if_neg hg, hty]
  split
  · rename_i heq
    exact absurd heq (by decide)
  · rename_i heq
    exact absurd heq (by decide)
  · simp only []
    rw [hsort]

theorem map_update_id (pid i : ℕ) :
    ∀ (t : List Slot), (∀ u ∈ t, u.idx ≠ i) →
      t.map (fun u => if u.idx = i then { u with electron := some pid } else u) = t := by
  intro t
  induction t with
  | nil => intro _; rfl
  | cons w tt ih =>
      intro h
      rw [List.map_cons, if_neg (h w (List.mem_cons_self _ _)),
        ih (fun u hu => h u (List.mem_cons_of_mem _ hu))]

theorem countP_update_occupied (pid : ℕ) (ch : Slot) :
    ∀ (l : List Slot), (l.map Slot.idx).Nodup → ch ∈ l → ch.electron = none →
      (l.map (fun t => if t.idx = ch.idx then { t with electron := some pid } else t)).countP
          (fun t => t.electron.isSome) =
        l.countP (fun t => t.electron.isSome) + 1 := by
  intro l
  induction l with
  | nil => intro _ h; cases h
  | cons w t ih =>
      intro hnd hmem hnone
      rw [List.map_cons] at hnd
      rw [List.nodup_cons] at hnd
      rw [List.map_cons, List.countP_cons, List.countP_cons]
      rcases List.mem_cons.mp hmem with rfl | hmem'
      · rw [if_pos rfl, map_update_id pid ch.idx t
          (fun u hu hui => hnd.1 (hui ▸ List.mem_map_of_mem Slot.idx hu))]
        rw [hnone]
        simp
      · have hwne : w.idx ≠ ch.idx := by
          intro hui
          exact hnd.1 (hui ▸ List.mem_map_of_mem Slot.idx hmem')
        rw [if_neg hwne, ih hnd.2 hmem' hnone]
        omega

theorem vdist_zero_left (p : Vec) : vdist ((0, 0) : Vec) p = vmag p := by
  rw [vdist, vmag, vmag]
  congr 1
  show (((0, 0) : Vec) - p).1 ^ 2 + (((0, 0) : Vec) - p).2 ^ 2 = p.1 ^ 2 + p.2 ^ 2
  rw [Prod.fst_sub, Prod.snd_sub]
  norm_num

/-- C3 (amended): for an atom whose position is at the origin (the
construction default) with the constructed slot geometry (inner slots
strictly nearer the center than outer slots), adding an electron while a slot
is empty occupies exactly one additional slot, the occupant is the added
electron, the electron's destination (not its position) is set to the slot's
coordinates, and an inner-shell slot is chosen whenever any inner slot is
empty.  (When the atom's position is moved away from the origin the
inner-shell priority can fail, because the slot table does not move with the
atom — see the counterexample.) -/
theorem C3_electron_placement (s : AtomState) (pid : ℕ) (brand : Bool)
    (hty : (s.store pid).ptype = .electron)
    (hg : ¬ (brand = true ∧ containsParticle s pid))
    (hnd : (s.electronShellPositions.map Slot.idx).Nodup)
    (hgeom : ∀ t ∈ s.electronShellPositions, vmag t.position =
      if t.idx < 2 then s.innerElectronShellRadius else s.outerElectronShellRadius)
    (hio : s.innerElectronShellRadius < s.outerElectronShellRadius)
    (hpos : s.position = (0, 0))
    (hopen : ∃ t ∈ s.electronShellPositions, t.electron = none) :
    ∃ ch ∈ s.electronShellPositions, ch.electron = none ∧
      addParticle brand s pid =
        { s with
          electrons := s.electrons ++ [pid]
          electronShellPositions := s.electronShellPositions.map (fun t =>
            if t.idx = ch.idx then { t with electron := some pid } else t)
          store := setWatched (setDest s.store pid ch.position) pid true } ∧
      (addParticle brand s pid).electronShellPositions.countP (fun t => t.electron.isSome) =
        s.electronShellPositions.countP (fun t => t.electron.isSome) + 1 ∧
      ((addParticle brand s pid).store pid).dest = ch.position ∧
      ((addParticle brand s pid).store pid).pos = (s.store pid).pos ∧
      (addParticle brand s pid).electrons = s.electrons ++ [pid] ∧
      ((∃ t0 ∈ s.electronShellPositions, t0.idx < 2 ∧ t0.electron = none) → ch.idx < 2) := by
  obtain ⟨t0, ht0mem, ht0none⟩ := hopen
  have ht0open : t0 ∈ s.electronShellPositions.filter (fun t => decide (t.electron = none)) := by
    rw [List.mem_filter]
    exact ⟨ht0mem, by simp [ht0none]⟩
  rcases hs2 : sortSlotsBy (fun t => vdist s.position t.position)
      (sortSlotsBy (fun t => vdist (s.store pid).pos t.position)
        (s.electronShellPositions.filter (fun t => decide (t.electron = none)))) with
    _ | ⟨ch, tl⟩
  · exfalso
    have hp2 := sortSlotsBy_perm (fun t => vdist s.position t.position)
      (sortSlotsBy (fun t => vdist (s.store pid).pos t.position)
        (s.electronShellPositions.filter (fun t => decide (t.electron = none))))
    rw [hs2] at hp2
    have hp1 := sortSlotsBy_perm (fun t => vdist (s.store pid).pos t.position)
      (s.electronShellPositions.filter (fun t => decide (t.electron = none)))
    have : t0 ∈ ([] : List Slot) := by
      rw [List.Perm.mem_iff hp2, List.Perm.mem_iff hp1]
      exact ht0open
    cases this
  · obtain ⟨hch1, hchmin⟩ := sortSlotsBy_head_min _ _ ch tl hs2
    have hp1 := sortSlotsBy_perm (fun t => vdist (s.store pid).pos t.position)
      (s.electronShellPositions.filter (fun t => decide (t.electron = none)))
    have hchopen : ch ∈ s.electronShellPositions.filter
        (fun t => decide (t.electron = none)) := (List.Perm.mem_iff hp1).mp hch1
    have hchmem : ch ∈ s.electronShellPositions := (List.mem_filter.mp hchopen).1
    have hchnone : ch.electron = none := by
      have := (List.mem_filter.mp hchopen).2
      simpa using this
    have hadd := addParticle_electron brand s pid hty hg ch tl hs2
    refine ⟨ch, hchmem, hchnone, hadd, ?_, ?_, ?_, ?_, ?_⟩
    · rw [hadd]
      exact countP_update_occupied pid ch s.electronShellPositions hnd hchmem hchnone
    · rw [hadd]
      show ((setWatched (setDest s.store pid ch.position) pid true) pid).dest = ch.position
      simp [setWatched, setDest, Function.update_same]
    · rw [hadd]
      show ((setWatched (setDest s.store pid ch.position) pid true) pid).pos = (s.store pid).pos
      simp [setWatched, setDest, Function.update_same]
    · rw [hadd]
    · intro hin
      obtain ⟨u0, hu0mem, hu0idx, hu0none⟩ := hin
      by_contra hchout
      have hu0open : u0 ∈ s.electronShellPositions.filter
          (fun t => decide (t.electron = none)) := by
        rw [List.mem_filter]
        exact ⟨hu0mem, by simp [hu0none]⟩
      have hle := hchmin u0 ((List.Perm.mem_iff hp1).mpr hu0open)
      rw [hpos, vdist_zero_left, vdist_zero_left, hgeom ch hchmem, hgeom u0 hu0mem,
        if_neg hchout, if_pos hu0idx] at hle
      exact absurd hle (not_le.mpr hio)

theorem initialSlots_geom (innerR outerR : ℝ) (hi : 0 ≤ innerR) (ho : 0 ≤ outerR) :
    ∀ t ∈ initialSlots innerR outerR, vmag t.position =
      if t.idx < 2 then innerR else outerR := by
  intro t ht
  rw [initialSlots] at ht
  rcases List.mem_cons.mp ht with rfl | ht2
  · show vmag (innerR, 0) = if (0 : ℕ) < 2 then innerR else outerR
    rw [vmag_axis, abs_of_nonneg hi, if_pos (by norm_num)]
  rcases List.mem_cons.mp ht2 with rfl | ht3
  · show vmag (-innerR, 0) = if (1 : ℕ) < 2 then innerR else outerR
    rw [vmag_axis, abs_neg, abs_of_nonneg hi, if_pos (by norm_num)]
  · obtain ⟨k, _, rfl⟩ := List.mem_map.mp ht3
    show vmag (onCircle (0, 0) outerR _) = if k + 2 < 2 then innerR else outerR
    rw [vmag_onCircle _ _ ho, if_neg (by omega)]

theorem initialSlots_electron_none (innerR outerR : ℝ) :
    ∀ t ∈ initialSlots innerR outerR, t.electron = none := by
  intro t ht
  rw [initialSlots] at ht
  rcases List.mem_cons.mp ht with rfl | ht2
  · rfl
  rcases List.mem_cons.mp ht2 with rfl | ht3
  · rfl
  · obtain ⟨k, _, rfl⟩ := List.mem_map.mp ht3
    rfl

theorem initialSlots_idx_nodup (innerR outerR : ℝ) :
    ((initialSlots innerR outerR).map Slot.idx).Nodup := by
  rw [initialSlots]
  rw [List.map_cons, List.map_cons, List.map_map]
  have hmap : (List.range 8).map (Slot.idx ∘ fun k =>
      (⟨k + 2, onCircle (0, 0) outerR (Real.pi / 8 * 1.2 + k * (2 * Real.pi / 8)), none⟩ :
        Slot)) = (List.range 8).map (fun k => k + 2) := by
    exact List.map_congr_left (fun k _ => rfl)
  rw [hmap]
  show ((0 : ℕ) :: 1 :: (List.range 8).map (fun k => k + 2)).Nodup
  decide

/-- A fresh atom over a heap of electron records (position at the origin). -/
noncomputable def sW3 : AtomState := initialAtom (fun _ => electronData) 3 85 130

theorem C3_witness :
    (sW3.store 0).ptype = .electron ∧
    ¬ (false = true ∧ containsParticle sW3 0) ∧
    (sW3.electronShellPositions.map Slot.idx).Nodup ∧
    (∀ t ∈ sW3.electronShellPositions, vmag t.position =
      if t.idx < 2 then sW3.innerElectronShellRadius else sW3.outerElectronShellRadius) ∧
    sW3.innerElectronShellRadius < sW3.outerElectronShellRadius ∧
    sW3.position = (0, 0) ∧
    (∃ t ∈ sW3.electronShellPositions, t.electron = none) ∧
    (∃ ch ∈ sW3.electronShellPositions, ch.electron = none ∧
      addParticle false sW3 0 =
        { sW3 with
          electrons := sW3.electrons ++ [0]
          electronShellPositions := sW3.electronShellPositions.map (fun t =>
            if t.idx = ch.idx then { t with electron := some 0 } else t)
          store := setWatched (setDest sW3.store 0 ch.position) 0 true } ∧
      (addParticle false sW3 0).electronShellPositions.countP (fun t => t.electron.isSome) =
        sW3.electronShellPositions.countP (fun t => t.electron.isSome) + 1 ∧
      ((addParticle false sW3 0).store 0).dest = ch.position ∧
      ((addParticle false sW3 0).store 0).pos = (sW3.store 0).pos ∧
      (addParticle false sW3 0).electrons = sW3.electrons ++ [0] ∧
      ((∃ t0 ∈ sW3.electronShellPositions, t0.idx < 2 ∧ t0.electron = none) → ch.idx < 2)) := by
  have hty : (sW3.store 0).ptype = .electron := rfl
  have hg : ¬ (false = true ∧ containsParticle sW3 0) := by simp
  have hnd : (sW3.electronShellPositions.map Slot.idx).Nodup := initialSlots_idx_nodup 85 130
  have hgeom : ∀ t ∈ sW3.electronShellPositions, vmag t.position =
      if t.idx < 2 then sW3.innerElectronShellRadius else sW3.outerElectronShellRadius :=
    initialSlots_geom 85 130 (by norm_num) (by norm_num)
  have hio : sW3.innerElectronShellRadius < sW3.outerElectronShellRadius := by
    show (85 : ℝ) < 130
    norm_num
  have hpos : sW3.position = (0, 0) := rfl
  have hopen : ∃ t ∈ sW3.electronShellPositions, t.electron = none :=
    ⟨⟨0, (85, 0), none⟩, List.mem_cons_self _ _, rfl⟩
  exact ⟨hty, hg, hnd, hgeom, hio, hpos, hopen,
    C3_electron_placement sW3 0 false hty hg hnd hgeom hio hpos hopen⟩

theorem vdist_self (p : Vec) : vdist p p = 0 := by
  rw [vdist, sub_self]
  exact vmag_eq_zero_iff 0 |>.mpr rfl

/-- The position of outer shell slot 2 (the first outer slot). -/
noncomputable def outerSlotPoint : Vec := onCircle (0, 0) 130 (Real.pi / 8 * 1.2)

/-- An atom whose position has been moved to coincide with outer slot 2. -/
noncomputable def sX3 : AtomState :=
  { initialAtom (fun _ => electronData) 3 85 130 with position := outerSlotPoint }

/-- C3 counterexample: with the atom positioned at an outer slot's
coordinates (reachable by setting `positionProperty`, which does not move the
slot table), adding an electron with all ten slots empty places it in an
outer-shell slot while both inner-shell slots remain empty — the claimed
unconditional inner-shell priority fails, because the second sort is by
distance from the atom's position, not from the slot table's fixed center. -/
theorem C3_counterexample :
    (∃ t ∈ sX3.electronShellPositions, t.idx < 2 ∧ t.electron = none) ∧
    (∃ u ∈ (addParticle false sX3 0).electronShellPositions,
      u.electron = some 0 ∧ 2 ≤ u.idx) ∧
    (∀ w ∈ (addParticle false sX3 0).electronShellPositions,
      w.idx < 2 → w.electron = none) := by
  have hty : (sX3.store 0).ptype = .electron := rfl
  have hg : ¬ (false = true ∧ containsParticle sX3 0) := by simp
  have hnd : (sX3.electronShellPositions.map Slot.idx).Nodup := initialSlots_idx_nodup 85 130
  have hgeom : ∀ t ∈ sX3.electronShellPositions, vmag t.position =
      if t.idx < 2 then (85 : ℝ) else 130 :=
    initialSlots_geom 85 130 (by norm_num) (by norm_num)
  -- slot 2 sits exactly at the atom's position
  have hslot2 : (⟨2, onCircle (0, 0) 130 (Real.pi / 8 * 1.2 + ((0 : ℕ) : ℝ) * (2 * Real.pi / 8)),
      none⟩ : Slot) ∈ sX3.electronShellPositions := by
    show _ ∈ initialSlots 85 130
    rw [initialSlots]
    refine List.mem_cons_of_mem _ (List.mem_cons_of_mem _ ?_)
    exact List.mem_map.mpr ⟨0, by decide, rfl⟩
  have hslot2pos : onCircle (0, 0) 130 (Real.pi / 8 * 1.2 + ((0 : ℕ) : ℝ) * (2 * Real.pi / 8)) =
      outerSlotPoint := by
    rw [outerSlotPoint, show Real.pi / 8 * 1.2 + ((0 : ℕ) : ℝ) * (2 * Real.pi / 8) =
      Real.pi / 8 * 1.2 by push_cast; ring]
  rcases hs2 : sortSlotsBy (fun t => vdist sX3.position t.position)
      (sortSlotsBy (fun t => vdist (sX3.store 0).pos t.position)
        (sX3.electronShellPositions.filter (fun t => decide (t.electron = none)))) with
    _ | ⟨ch, tl⟩
  · exfalso
    have hp2 := sortSlotsBy_perm (fun t => vdist sX3.position t.position)
      (sortSlotsBy (fun t => vdist (sX3.store 0).pos t.position)
        (sX3.electronShellPositions.filter (fun t => decide (t.electron = none))))
    rw [hs2] at hp2
    have hp1 := sortSlotsBy_perm (fun t => vdist (sX3.store 0).pos t.position)
      (sX3.electronShellPositions.filter (fun t => decide (t.electron = none)))
    have hmemf : (⟨0, ((85 : ℝ), (0 : ℝ)), none⟩ : Slot) ∈
        sX3.electronShellPositions.filter (fun t => decide (t.electron = none)) := by
      rw [List.mem_filter]
      exact ⟨List.mem_cons_self _ _, by simp⟩
    have : (⟨0, ((85 : ℝ), (0 : ℝ)), none⟩ : Slot) ∈ ([] : List Slot) := by
      rw [List.Perm.mem_iff hp2, List.Perm.mem_iff hp1]
      exact hmemf
    cases this
  · obtain ⟨hch1, hchmin⟩ := sortSlotsBy_head_min _ _ ch tl hs2
    have hp1 := sortSlotsBy_perm (fun t => vdist (sX3.store 0).pos t.position)
      (sX3.electronShellPositions.filter (fun t => decide (t.electron = none)))
    have hchopen : ch ∈ sX3.electronShellPositions.filter
        (fun t => decide (t.electron = none)) := (List.Perm.mem_iff hp1).mp hch1
    have hchmem : ch ∈ sX3.electronShellPositions := (List.mem_filter.mp hchopen).1
    -- the head's distance key is 0, so its position is the atom's position
    have hslot2open : (⟨2, onCircle (0, 0) 130
        (Real.pi / 8 * 1.2 + ((0 : ℕ) : ℝ) * (2 * Real.pi / 8)), none⟩ : Slot) ∈
        sX3.electronShellPositions.filter (fun t => decide (t.electron = none)) := by
      rw [List.mem_filter]
      exact ⟨hslot2, by simp⟩
    have hkey := hchmin _ ((List.Perm.mem_iff hp1).mpr hslot2open)
    have hkey0 : vdist sX3.position ch.position = 0 := by
      have hx : sX3.position = outerSlotPoint := rfl
      rw [hx, hslot2pos, vdist_self] at hkey
      exact le_antisymm hkey (vdist_nonneg _ _)
    have hchpos : ch.position = outerSlotPoint := by
      have := (vdist_eq_zero_iff sX3.position ch.position).mp hkey0
      rw [← this]
      rfl
    have hchout : ¬ ch.idx < 2 := by
      intro hlt
      have h1 := hgeom ch hchmem
      rw [if_pos hlt, hchpos] at h1
      have h2 : vmag outerSlotPoint = 130 := by
        rw [outerSlotPoint]
        exact vmag_onCircle 130 _ (by norm_num)
      rw [h2] at h1
      norm_num at h1
    have hadd := addParticle_electron false sX3 0 hty hg ch tl hs2
    refine ⟨⟨⟨0, ((85 : ℝ), (0 : ℝ)), none⟩, List.mem_cons_self _ _, by norm_num, rfl⟩, ?_, ?_⟩
    · refine ⟨{ ch with electron := some 0 }, ?_, rfl, by show 2 ≤ ch.idx; omega⟩
      rw [hadd]
      show { ch with electron := some 0 } ∈ sX3.electronShellPositions.map
        (fun t => if t.idx = ch.idx then { t with electron := some 0 } else t)
      have heq : (fun t => if t.idx = ch.idx then { t with electron := some 0 } else t) ch =
          { ch with electron := some 0 } := by
        show (if ch.idx = ch.idx then { ch with electron := some 0 } else ch) =
          { ch with electron := some 0 }
        rw [if_pos rfl]
      rw [← heq]
      exact List.mem_map_of_mem _ hchmem
    · intro w hw hwlt
      rw [hadd] at hw
      obtain ⟨v, hvmem, hveq⟩ := List.mem_map.mp hw
      by_cases hvidx : v.idx = ch.idx
      · rw [if_pos hvidx] at hveq
        rw [← hveq] at hwlt
        exact absurd (hvidx ▸ hwlt) hchout
      · rw [if_neg hvidx] at hveq
        rw [← hveq]
        exact initialSlots_electron_none 85 130 v hvmem

theorem shellClearStep_skip (innerR outerR : ℝ) (pid : ℕ) (acc : List Slot × Store) (i : ℕ)
    (h : ∀ w ∈ acc.1, w.idx = i → w.electron ≠ some pid) :
    shellClearStep innerR outerR pid acc i = acc := by
  rcases hf : acc.1.find? (fun w => decide (w.idx = i)) with _ | w
  · rw [shellClearStep, hf]
  · have hwmem := List.mem_of_find?_eq_some hf
    have hwp := List.find?_some hf
    rw [shellClearStep, hf]
    simp only []
    rw [if_neg (h w hwmem (by simpa using hwp))]

theorem shellClearFold_skip (innerR outerR : ℝ) (pid : ℕ) :
    ∀ (is : List ℕ) (acc : List Slot × Store),
      (∀ i ∈ is, ∀ w ∈ acc.1, w.idx = i → w.electron ≠ some pid) →
      is.foldl (shellClearStep innerR outerR pid) acc = acc := by
  intro is
  induction is with
  | nil => intro acc _; rfl
  | cons i rest ih =>
      intro acc h
      rw [List.foldl_cons,
        shellClearStep_skip innerR outerR pid acc i (h i (List.mem_cons_self _ _))]
      exact ih acc (fun j hj => h j (List.mem_cons_of_mem _ hj))

theorem clear_map_no_pid (pid : ℕ) (i : ℕ) (slots : List Slot)
    (h : ∀ w ∈ slots, w.electron = some pid → w.idx = i) :
    ∀ w ∈ slots.map (fun w => if w.idx = i then { w with electron := none } else w),
      w.electron ≠ some pid := by
  intro w hw
  obtain ⟨v, hvmem, hveq⟩ := List.mem_map.mp hw
  by_cases hvi : v.idx = i
  · rw [if_pos hvi] at hveq
    rw [← hveq]
    simp
  · rw [if_neg hvi] at hveq
    rw [← hveq]
    intro hvp
    exact hvi (h v hvmem hvp)

theorem shellClearStep_no_pid (innerR outerR : ℝ) (pid : ℕ) (acc : List Slot × Store) (i : ℕ)
    (h : ∀ w ∈ acc.1, w.electron = some pid → w.idx = i)
    (hnd : (acc.1.map Slot.idx).Nodup) :
    ∀ w ∈ (shellClearStep innerR outerR pid acc i).1, w.electron ≠ some pid := by
  rcases hf : acc.1.find? (fun w => decide (w.idx = i)) with _ | w
  · rw [shellClearStep, hf]
    intro w hw hwp
    have := List.find?_eq_none.mp hf w hw
    simp [h w hw hwp] at this
  · have hwmem := List.mem_of_find?_eq_some hf
    have hwp : w.idx = i := by simpa using List.find?_some hf
    by_cases hwe : w.electron = some pid
    · rw [shellClearStep, hf]
      simp only []
      rw [if_pos hwe]
      have hno : ∀ v ∈ acc.1.map
          (fun v => if v.idx = i then { v with electron := none } else v),
          v.electron ≠ some pid := clear_map_no_pid pid i acc.1 h
      by_cases hin : |vmag w.position - innerR| < 1e-5
      · rw [if_pos hin]
        rcases hsort : sortSlotsBy (fun u => vdist u.position w.position)
            ((acc.1.map (fun v => if v.idx = i then { v with electron := none } else v)).filter
              (fun u => decide (u.electron ≠ none ∧ |vmag u.position - outerR| < 1e-5))) with
          _ | ⟨u, utl⟩
        · rw [hsort]
          exact hno
        · rw [hsort]
          obtain ⟨humem, _⟩ := sortSlotsBy_head_min _ _ u utl hsort
          have humem2 := (List.mem_filter.mp humem).1
          intro v hv hvp
          obtain ⟨x, hxmem, hxeq⟩ := List.mem_map.mp hv
          by_cases hxu : x.idx = u.idx
          · rw [if_pos hxu] at hxeq
            rw [← hxeq] at hvp
            simp at hvp
          · rw [if_neg hxu] at hxeq
            by_cases hxi : x.idx = i
            · rw [if_pos hxi] at hxeq
              rw [← hxeq] at hvp
              simp only at hvp
              exact hno u humem2 (by rw [← hvp])
            · rw [if_neg hxi] at hxeq
              rw [← hxeq] at hvp
              exact hno x hxmem hvp
      · rw [if_neg hin]
        exact hno
    · rw [shellClearStep, hf]
      simp only []
      rw [if_neg hwe]
      intro v hv hvp
      have hvi := h v hv hvp
      have : v = w := List.inj_on_of_nodup_map hnd hv hwmem (by rw [hvi, hwp])
      rw [this] at hvp
      exact hwe hvp

theorem find_idx_self (slots : List Slot) (t : Slot)
    (hnd : (slots.map Slot.idx).Nodup) (htmem : t ∈ slots) :
    slots.find? (fun w => decide (w.idx = t.idx)) = some t := by
  rcases hf : slots.find? (fun w => decide (w.idx = t.idx)) with _ | w
  · exfalso
    have := List.find?_eq_none.mp hf t htmem
    simp at this
  · have hwmem := List.mem_of_find?_eq_some hf
    have hwp : w.idx = t.idx := by simpa using List.find?_some hf
    have hwt : w = t := List.inj_on_of_nodup_map hnd hwmem htmem hwp
    rw [hwt] at hf
    exact hf

theorem shellClear_core (innerR outerR : ℝ) (pid : ℕ) (slots : List Slot) (store : Store)
    (t : Slot) (hnd : (slots.map Slot.idx).Nodup) (htmem : t ∈ slots)
    (hte : t.electron = some pid)
    (huniq : ∀ u ∈ slots, u.electron = some pid → u.idx = t.idx) :
    (¬ |vmag t.position - innerR| < 1e-5 →
      (slots.map Slot.idx).foldl (shellClearStep innerR outerR pid) (slots, store) =
        (slots.map (fun w => if w.idx = t.idx then { w with electron := none } else w),
         store)) ∧
    (|vmag t.position - innerR| < 1e-5 →
      (∀ w ∈ slots, w.idx ≠ t.idx → ¬ (w.electron ≠ none ∧ |vmag w.position - outerR| < 1e-5)) →
      (slots.map Slot.idx).foldl (shellClearStep innerR outerR pid) (slots, store) =
        (slots.map (fun w => if w.idx = t.idx then { w with electron := none } else w),
         store)) ∧
    (|vmag t.position - innerR| < 1e-5 →
      (∃ w ∈ slots, w.idx ≠ t.idx ∧ w.electron ≠ none ∧ |vmag w.position - outerR| < 1e-5) →
      ∃ u ∈ slots, ∃ e : ℕ, u.idx ≠ t.idx ∧ u.electron = some e ∧
        |vmag u.position - outerR| < 1e-5 ∧
        (∀ w ∈ slots, w.idx ≠ t.idx → w.electron ≠ none → |vmag w.position - outerR| < 1e-5 →
          vdist u.position t.position ≤ vdist w.position t.position) ∧
        (slots.map Slot.idx).foldl (shellClearStep innerR outerR pid) (slots, store) =
          (slots.map (fun w => if w.idx = u.idx then { w with electron := none }
            else if w.idx = t.idx then { w with electron := some e } else w),
           setDest store e t.position)) := by
  obtain ⟨A, B, hAB⟩ := List.append_of_mem (List.mem_map_of_mem Slot.idx htmem)
  have hnd2 := hnd
  rw [hAB, List.nodup_append] at hnd2
  have htA : t.idx ∉ A := fun hA => hnd2.2.2 hA (List.mem_cons_self _ _)
  have hfold : (slots.map Slot.idx).foldl (shellClearStep innerR outerR pid) (slots, store) =
      shellClearStep innerR outerR pid (slots, store) t.idx := by
    rw [hAB, List.foldl_append]
    rw [shellClearFold_skip innerR outerR pid A (slots, store) ?_]
    · rw [List.foldl_cons]
      exact shellClearFold_skip innerR outerR pid B _
        (fun i _ w hw hwi hwp =>
          (shellClearStep_no_pid innerR outerR pid (slots, store) t.idx huniq hnd w hw) hwp)
    · intro i hi w hw hwi hwp
      have : i = t.idx := by rw [← hwi, huniq w hw hwp]
      exact htA (this ▸ hi)
  have hfind : slots.find? (fun w => decide (w.idx = t.idx)) = some t :=
    find_idx_self slots t hnd htmem
  refine ⟨?_, ?_, ?_⟩
  · intro hnotinner
    rw [hfold, shellClearStep, hfind]
    simp only []
    rw [if_pos hte, if_neg hnotinner]
  · intro hinner hno
    have hocc : (slots.map
        (fun w => if w.idx = t.idx then { w with electron := none } else w)).filter
        (fun u => decide (u.electron ≠ none ∧ |vmag u.position - outerR| < 1e-5)) = [] := by
      rw [List.filter_eq_nil_iff]
      intro u hu
      obtain ⟨v, hvmem, hveq⟩ := List.mem_map.mp hu
      by_cases hvi : v.idx = t.idx
      · rw [if_pos hvi] at hveq
        rw [← hveq]
        simp
      · rw [if_neg hvi] at hveq
        rw [← hveq]
        simpa using hno v hvmem hvi
    rw [hfold, shellClearStep, hfind]
    simp only []
    rw [if_pos hte, if_pos hinner, hocc]
    rfl
  · intro hinner hex
    obtain ⟨w0, hw0mem, hw0idx, hw0e, hw0out⟩ := hex
    have hw0in1 : w0 ∈ slots.map
        (fun w => if w.idx = t.idx then { w with electron := none } else w) :=
      List.mem_map.mpr ⟨w0, hw0mem, by rw [if_neg hw0idx]⟩
    have hw0occ : w0 ∈ (slots.map
        (fun w => if w.idx = t.idx then { w with electron := none } else w)).filter
        (fun u => decide (u.electron ≠ none ∧ |vmag u.position - outerR| < 1e-5)) := by
      rw [List.mem_filter]
      exact ⟨hw0in1, by simp [hw0e, hw0out]⟩
    rcases hsort : sortSlotsBy (fun u => vdist u.position t.position)
        ((slots.map (fun w => if w.idx = t.idx then { w with electron := none } else w)).filter
          (fun u => decide (u.electron ≠ none ∧ |vmag u.position - outerR| < 1e-5))) with
      _ | ⟨u, utl⟩
    · exfalso
      have hp := sortSlotsBy_perm (fun u => vdist u.position t.position)
        ((slots.map (fun w => if w.idx = t.idx then { w with electron := none } else w)).filter
          (fun u => decide (u.electron ≠ none ∧ |vmag u.position - outerR| < 1e-5)))
      rw [hsort] at hp
      have : w0 ∈ ([] : List Slot) := (List.Perm.mem_iff hp).mpr hw0occ
      cases this
    · obtain ⟨humem, humin⟩ := sortSlotsBy_head_min _ _ u utl hsort
      have hu1 := (List.mem_filter.mp humem).1
      have hu2 := (List.mem_filter.mp humem).2
      have hupred : u.electron ≠ none ∧ |vmag u.position - outerR| < 1e-5 := by
        simpa using hu2
      obtain ⟨v, hvmem, hveq⟩ := List.mem_map.mp hu1
      have huv : u = v ∧ v.idx ≠ t.idx := by
        by_cases hvi : v.idx = t.idx
        · rw [if_pos hvi] at hveq
          rw [← hveq] at hupred
          simp at hupred
        · rw [if_neg hvi] at hveq
          exact ⟨hveq.symm, hvi⟩
      obtain ⟨e, hue⟩ := Option.ne_none_iff_exists'.mp hupred.1
      refine ⟨u, huv.1 ▸ hvmem, e, ?_, hue, hupred.2, ?_, ?_⟩
      · rw [huv.1]
        exact huv.2
      · intro w hwmem hwidx hwe hwout
        refine humin w ?_
        rw [List.mem_filter]
        refine ⟨List.mem_map.mpr ⟨w, hwmem, by rw [if_neg hwidx]⟩, by simp [hwe, hwout]⟩
      · rw [hfold, shellClearStep, hfind]
        simp only []
        rw [if_pos hte, if_pos hinner, hsort]
        simp only []
        rw [hue, List.map_map]
        congr 1
        refine List.map_congr_left ?_
        intro v2 hv2
        simp only [Function.comp]
        have hut : u.idx ≠ t.idx := by rw [huv.1]; exact huv.2
        by_cases hv2t : v2.idx = t.idx
        · simp [hv2t, Ne.symm hut, hue]
        · by_cases hv2u : v2.idx = u.idx
          · simp [hv2t, hv2u, hut]
          · simp [hv2t, hv2u, hut]

/-- C4: when an electron is removed from the electron collection, the slot it
occupied is cleared; if that slot is an inner-shell slot (the code's test:
`|‖position‖ − innerRadius| < 1e-5`) and some other occupied outer-shell slot
exists, an occupied outer slot at minimal distance from the vacated slot has
its electron moved into the vacated slot, that electron's destination is set
to the vacated slot's coordinates, and the outer slot becomes empty; if the
vacated slot is not inner, or no outer slot is occupied, only the vacated
slot is cleared and no particle is retargeted. -/
theorem C4_removal_backfill (s : AtomState) (pid : ℕ) (t : Slot)
    (hnd : (s.electronShellPositions.map Slot.idx).Nodup)
    (htmem : t ∈ s.electronShellPositions)
    (hte : t.electron = some pid)
    (huniq : ∀ u ∈ s.electronShellPositions, u.electron = some pid → u.idx = t.idx) :
    (removeElectron s pid).electrons = s.electrons.erase pid ∧
    (¬ |vmag t.position - s.innerElectronShellRadius| < 1e-5 →
      (removeElectron s pid).electronShellPositions = s.electronShellPositions.map
        (fun w => if w.idx = t.idx then { w with electron := none } else w) ∧
      (removeElectron s pid).store = s.store) ∧
    (|vmag t.position - s.innerElectronShellRadius| < 1e-5 →
      (∀ w ∈ s.electronShellPositions, w.idx ≠ t.idx →
        ¬ (w.electron ≠ none ∧ |vmag w.position - s.outerElectronShellRadius| < 1e-5)) →
      (removeElectron s pid).electronShellPositions = s.electronShellPositions.map
        (fun w => if w.idx = t.idx then { w with electron := none } else w) ∧
      (removeElectron s pid).store = s.store) ∧
    (|vmag t.position - s.innerElectronShellRadius| < 1e-5 →
      (∃ w ∈ s.electronShellPositions, w.idx ≠ t.idx ∧ w.electron ≠ none ∧
        |vmag w.position - s.outerElectronShellRadius| < 1e-5) →
      ∃ u ∈ s.electronShellPositions, ∃ e : ℕ, u.idx ≠ t.idx ∧ u.electron = some e ∧
        |vmag u.position - s.outerElectronShellRadius| < 1e-5 ∧
        (∀ w ∈ s.electronShellPositions, w.idx ≠ t.idx → w.electron ≠ none →
          |vmag w.position - s.outerElectronShellRadius| < 1e-5 →
          vdist u.position t.position ≤ vdist w.position t.position) ∧
        (removeElectron s pid).electronShellPositions = s.electronShellPositions.map
          (fun w => if w.idx = u.idx then { w with electron := none }
            else if w.idx = t.idx then { w with electron := some e } else w) ∧
        (removeElectron s pid).store = setDest s.store e t.position) := by
  obtain ⟨hc1, hc2, hc3⟩ := shellClear_core s.innerElectronShellRadius
    s.outerElectronShellRadius pid s.electronShellPositions s.store t hnd htmem hte huniq
  refine ⟨rfl, ?_, ?_, ?_⟩
  · intro hnotinner
    have h := hc1 hnotinner
    constructor
    · show ((s.electronShellPositions.map Slot.idx).foldl
        (shellClearStep s.innerElectronShellRadius s.outerElectronShellRadius pid)
        (s.electronShellPositions, s.store)).1 = _
      rw [h]
    · show ((s.electronShellPositions.map Slot.idx).foldl
        (shellClearStep s.innerElectronShellRadius s.outerElectronShellRadius pid)
        (s.electronShellPositions, s.store)).2 = _
      rw [h]
  · intro hinner hno
    have h := hc2 hinner hno
    constructor
    · show ((s.electronShellPositions.map Slot.idx).foldl
        (shellClearStep s.innerElectronShellRadius s.outerElectronShellRadius pid)
        (s.electronShellPositions, s.store)).1 = _
      rw [h]
    · show ((s.electronShellPositions.map Slot.idx).foldl
        (shellClearStep s.innerElectronShellRadius s.outerElectronShellRadius pid)
        (s.electronShellPositions, s.store)).2 = _
      rw [h]
  · intro hinner hex
    obtain ⟨u, humem, e, huidx, hue, huout, humin, hres⟩ := hc3 hinner hex
    refine ⟨u, humem, e, huidx, hue, huout, humin, ?_, ?_⟩
    · show ((s.electronShellPositions.map Slot.idx).foldl
        (shellClearStep s.innerElectronShellRadius s.outerElectronShellRadius pid)
        (s.electronShellPositions, s.store)).1 = _
      rw [hres]
    · show ((s.electronShellPositions.map Slot.idx).foldl
        (shellClearStep s.innerElectronShellRadius s.outerElectronShellRadius pid)
        (s.electronShellPositions, s.store)).2 = _
      rw [hres]

/-- An occupied inner slot (electron 5) used in the C4 scenario. -/
def slotC4a : Slot := ⟨0, (85, 0), some 5⟩

/-- An occupied outer slot (electron 7) used in the C4 scenario. -/
def slotC4b : Slot := ⟨1, (130, 0), some 7⟩

/-- An atom with electron 5 in an inner slot and electron 7 in an outer slot. -/
noncomputable def sC4 : AtomState :=
  { initialAtom (fun _ => electronData) 3 85 130 with
    electrons := [5, 7], electronShellPositions := [slotC4a, slotC4b] }

theorem C4_witness :
    (sC4.electronShellPositions.map Slot.idx).Nodup ∧
    slotC4a ∈ sC4.electronShellPositions ∧
    slotC4a.electron = some 5 ∧
    (∀ u ∈ sC4.electronShellPositions, u.electron = some 5 → u.idx = slotC4a.idx) ∧
    ((removeElectron sC4 5).electrons = sC4.electrons.erase 5 ∧
    (¬ |vmag slotC4a.position - sC4.innerElectronShellRadius| < 1e-5 →
      (removeElectron sC4 5).electronShellPositions = sC4.electronShellPositions.map
        (fun w => if w.idx = slotC4a.idx then { w with electron := none } else w) ∧
      (removeElectron sC4 5).store = sC4.store) ∧
    (|vmag slotC4a.position - sC4.innerElectronShellRadius| < 1e-5 →
      (∀ w ∈ sC4.electronShellPositions, w.idx ≠ slotC4a.idx →
        ¬ (w.electron ≠ none ∧ |vmag w.position - sC4.outerElectronShellRadius| < 1e-5)) →
      (removeElectron sC4 5).electronShellPositions = sC4.electronShellPositions.map
        (fun w => if w.idx = slotC4a.idx then { w with electron := none } else w) ∧
      (removeElectron sC4 5).store = sC4.store) ∧
    (|vmag slotC4a.position - sC4.innerElectronShellRadius| < 1e-5 →
      (∃ w ∈ sC4.electronShellPositions, w.idx ≠ slotC4a.idx ∧ w.electron ≠ none ∧
        |vmag w.position - sC4.outerElectronShellRadius| < 1e-5) →
      ∃ u ∈ sC4.electronShellPositions, ∃ e : ℕ, u.idx ≠ slotC4a.idx ∧ u.electron = some e ∧
        |vmag u.position - sC4.outerElectronShellRadius| < 1e-5 ∧
        (∀ w ∈ sC4.electronShellPositions, w.idx ≠ slotC4a.idx → w.electron ≠ none →
          |vmag w.position - sC4.outerElectronShellRadius| < 1e-5 →
          vdist u.position slotC4a.position ≤ vdist w.position slotC4a.position) ∧
        (removeElectron sC4 5).electronShellPositions = sC4.electronShellPositions.map
          (fun w => if w.idx = u.idx then { w with electron := none }
            else if w.idx = slotC4a.idx then { w with electron := some e } else w) ∧
        (removeElectron sC4 5).store = setDest sC4.store e slotC4a.position)) := by
  have hnd : (sC4.electronShellPositions.map Slot.idx).Nodup := by decide
  have htmem : slotC4a ∈ sC4.electronShellPositions := List.mem_cons_self _ _
  have hte : slotC4a.electron = some 5 := rfl
  have huniq : ∀ u ∈ sC4.electronShellPositions, u.electron = some 5 → u.idx = slotC4a.idx := by
    intro u hu hue
    rcases List.mem_cons.mp hu with rfl | hu2
    · rfl
    rcases List.mem_cons.mp hu2 with rfl | hu3
    · exact absurd hue (by decide)
    · cases hu3
  exact ⟨hnd, htmem, hte, huniq, C4_removal_backfill sC4 5 slotC4a hnd htmem hte huniq⟩
